import Mathlib

/-!
A shallow embedding of the reconciliation core of `src/projects.py`
(the `main` function and its helpers `_remote_mode_url` /
`_fetchable_remote_urls`).

Python dictionaries are modelled as association lists over `String`
keys: `dget` is `dict.get` (first matching key), `dset` is
`dict.__setitem__` (update in place, preserving position, or append).
Python dict equality is order-insensitive, modelled by `modeMapEq` /
`remoteMapEq`.

Subprocess effects are modelled by an oracle `Args.exec : Action → Bool`
giving the success of each external command, and the interpreter emits a
trace of issued actions and log messages.  A `subprocess` call made with
`check=True` that fails raises `CalledProcessError`; the interpreter
models an uncaught exception as an `Abort` value that stops the run.
Log messages whose text embeds captured process output (stdout/stderr
dumps) keep only the fixed part of the format string; the informational
post-checks (show-ref, stash list, ls-files) are modelled as actions
whose output does not influence control flow.
-/

namespace Metagit

/-- `dict.get k`: the value at the first entry whose key is `k`. -/
def dget {β : Type} : List (String × β) → String → Option β
  | [], _ => none
  | (k', v) :: rest, k => if k' = k then some v else dget rest k

/-- `dict[k] = v`: replace the first entry with key `k`, else append. -/
def dset {β : Type} : List (String × β) → String → β → List (String × β)
  | [], k, v => [(k, v)]
  | (k', v') :: rest, k, v =>
      if k' = k then (k, v) :: rest else (k', v') :: dset rest k v

/-- The keys of a dict, in insertion order. -/
def keys {β : Type} (l : List (String × β)) : List String := l.map Prod.fst

/-- `mode → URL`, e.g. `{"fetch": u, "push": v}` (a Python dict). -/
abbrev ModeMap := List (String × String)

/-- `remote → mode → URL` (a Python dict of dicts). -/
abbrev RemoteMap := List (String × ModeMap)

/-- Python dict equality for `ModeMap` (order-insensitive). -/
def modeMapEq (a b : ModeMap) : Bool :=
  (keys a).all (fun k => dget a k == dget b k) &&
    (keys b).all (fun k => dget a k == dget b k)

/-- Python `==` between a `ModeMap` and an optional `ModeMap` (`None ≠ dict`). -/
def modeMapOptEq (a : ModeMap) : Option ModeMap → Bool
  | none => false
  | some b => modeMapEq a b

/-- Equality of optional `ModeMap`s, as Python compares dict values. -/
def optModeMapEq : Option ModeMap → Option ModeMap → Bool
  | none, none => true
  | some a, some b => modeMapEq a b
  | _, _ => false

/-- Python dict equality for `RemoteMap` (order-insensitive, nested). -/
def remoteMapEq (a b : RemoteMap) : Bool :=
  (keys a).all (fun k => optModeMapEq (dget a k) (dget b k)) &&
    (keys b).all (fun k => optModeMapEq (dget a k) (dget b k))

/-- Python `==` between a `RemoteMap` and an optional one (`None ≠ dict`). -/
def remoteMapOptEq (a : RemoteMap) : Option RemoteMap → Bool
  | none => false
  | some b => remoteMapEq a b

/-- The result of `_remote_mode_url`: a `RemoteMap`, or the
`CalledProcessError` (carrying stderr) returned as data when
`git remote -v` fails. -/
inductive ObsVal : Type
  | ok (rmu : RemoteMap)
  | queryFailed (stderr : String)
deriving DecidableEq, Repr

/-- The observed (or expected) topology: `project → ObsVal`. -/
abbrev Topology := List (String × ObsVal)

/-- An expected topology loaded from a specification document contains
only plain `RemoteMap`s; lift it into `Topology` form. -/
def toExp (e : List (String × RemoteMap)) : Topology :=
  e.map (fun pr => (pr.1, ObsVal.ok pr.2))

/-- External commands issued by the run (each a `subprocess` call). -/
inductive Action : Type
  | clone (project remote url : String)
  | remoteAdd (project remote url : String)
  | setUrl (project remote : String) (push : Bool) (url : String)
  | fetchAll (project : String)
  | showRef (project : String)
  | stashList (project : String)
  | lsFiles (project : String)
deriving DecidableEq, Repr

/-- Actions issued with `check=True` in the source: a failure raises
`CalledProcessError` instead of being handled. -/
def isChecked : Action → Bool
  | .remoteAdd .. => true
  | .setUrl .. => true
  | _ => false

/-- Corrective actions: clone, add-remote, set-url. -/
def isCorrective : Action → Bool
  | .clone .. => true
  | .remoteAdd .. => true
  | .setUrl .. => true
  | _ => false

/-- Clone actions. -/
def isClone : Action → Bool
  | .clone .. => true
  | _ => false

/-- An uncaught exception terminating the run: either a failed
`AssertionError` or a `CalledProcessError` from a `check=True` call. -/
inductive Abort : Type
  | assertionError
  | calledProcessError (a : Action)
deriving DecidableEq, Repr

/-- Logging levels used by the run. -/
inductive Level : Type
  | debug
  | info
  | warning
  | error
deriving DecidableEq, Repr

/-- A log record: level, identifying prefix string, fixed message text. -/
structure LogMsg : Type where
  level : Level
  pfx : String
  text : String
deriving DecidableEq, Repr

/-- Run configuration: capability flags (after `--sync` expansion), the
name filter (`re.search` abstracted to a predicate), and the subprocess
outcome oracle. -/
structure Args : Type where
  clone : Bool
  fetch : Bool
  setUrls : Bool
  pattern : String → Bool
  exec : Action → Bool

/-- `f"[{project}]"` -/
def projPfx (p : String) : String := "[" ++ p ++ "]"

/-- `prefix + f" [{remote}]"` -/
def remPfx (p r : String) : String := projPfx p ++ " [" ++ r ++ "]"

/-- `remote_prefix + f" [{mode}]"` -/
def modePfx (p r m : String) : String := remPfx p r ++ " [" ++ m ++ "]"

/-- Intermediate result of a reconciliation stage: accumulated log,
issued actions, resulting state, and an abort if an exception escaped. -/
structure StepRes (σ : Type) : Type where
  log : List LogMsg
  actions : List Action
  state : σ
  abort : Option Abort
deriving Repr, DecidableEq

/-- Comparator used to model Python `sorted` on strings. -/
def strLe (x y : String) : Bool := !(compare x y == Ordering.gt)

/-- Insert into a sorted list (stable insertion sort step). -/
def insertSorted (x : String) : List String → List String
  | [] => [x]
  | y :: ys => if strLe x y then x :: y :: ys else y :: insertSorted x ys

/-- Insertion sort, modelling Python `sorted`. -/
def sortStr : List String → List String
  | [] => []
  | x :: xs => insertSorted x (sortStr xs)

/-- `sorted(set(a).union(b))`. -/
def sortedUnion (a b : List String) : List String :=
  sortStr (a ++ b).dedup

/-- `_fetchable_remote_urls`: the remotes of a `RemoteMap` carrying a
truthy (non-empty) `fetch` URL, in dict iteration (insertion) order. -/
def fetchableRemoteUrls (rm : RemoteMap) : List (String × String) :=
  rm.filterMap (fun rmu =>
    match dget rmu.2 "fetch" with
    | none => none
    | some u => if u = "" then none else some (rmu.1, u))

/-- The clone fallback loop (`projects.py` lines 231-259): try each
candidate in turn; a failure is logged (warning) and the next candidate
tried; the first success is logged (info) and wins; if all candidates
fail the `for`-`else` logs a project-level error. -/
def tryClone (args : Args) (p : String) :
    List (String × String) → List LogMsg × List Action × Option (String × String)
  | [] => ([⟨.error, projPfx p, "unable to clone from expected remotes"⟩], [], none)
  | (r, u) :: rest =>
      let a := Action.clone p r u
      if args.exec a then
        ([⟨.info, remPfx p r, "clone from " ++ u ++ " complete"⟩], [a], some (r, u))
      else
        let next := tryClone args p rest
        (⟨.warning, remPfx p r, "clone from " ++ u ++ " failed"⟩ :: next.1,
          a :: next.2.1, next.2.2)

/-- The mode loop (`projects.py` lines 311-345): for each mode key, a
falsy expected URL (absent or empty) is reported as an unexpected mode;
a mismatching truthy expected URL is corrected by `git remote set-url`
(with `--push` when the mode is `push`) when `--set-urls` is granted,
else skipped with a warning.  The `set-url` call uses `check=True`: a
failure aborts the run. -/
def syncModes (args : Args) (p r : String) (em : ModeMap) :
    List String → ModeMap → StepRes ModeMap
  | [], om => ⟨[], [], om, none⟩
  | m :: ms, om =>
      let pfx := modePfx p r m
      match dget em m with
      | none =>
          let rest := syncModes args p r em ms om
          ⟨⟨.warning, pfx, "unexpected mode"⟩ :: rest.log, rest.actions,
            rest.state, rest.abort⟩
      | some eu =>
          if eu = "" then
            let rest := syncModes args p r em ms om
            ⟨⟨.warning, pfx, "unexpected mode"⟩ :: rest.log, rest.actions,
              rest.state, rest.abort⟩
          else if dget om m = some eu then
            syncModes args p r em ms om
          else if !args.setUrls then
            let rest := syncModes args p r em ms om
            ⟨⟨.debug, pfx, "mode sync needed"⟩ ::
                ⟨.warning, pfx, "skipping (rerun with --set-urls)..."⟩ :: rest.log,
              rest.actions, rest.state, rest.abort⟩
          else
            let a := Action.setUrl p r (m = "push") eu
            if args.exec a then
              let rest := syncModes args p r em ms (dset om m eu)
              ⟨⟨.debug, pfx, "mode sync needed"⟩ ::
                  ⟨.info, pfx, "changing..."⟩ :: rest.log,
                a :: rest.actions, rest.state, rest.abort⟩
            else
              ⟨[⟨.debug, pfx, "mode sync needed"⟩, ⟨.info, pfx, "changing..."⟩],
                [a], om, some (.calledProcessError a)⟩

/-- The remote loop (`projects.py` lines 265-345): for each remote key,
a falsy expected `ModeMap` (absent or empty) is reported as an
unexpected remote; a mismatching truthy expected `ModeMap` is
reconciled: a missing remote is added with the first expected URL
(`git remote add`, `check=True`, binding both modes to it) when
`--set-urls` is granted, else skipped; an existing (or just-added)
remote recurses into the mode loop. -/
def syncRemotes (args : Args) (p : String) (erm : RemoteMap) :
    List String → RemoteMap → StepRes RemoteMap
  | [], orm => ⟨[], [], orm, none⟩
  | r :: rs, orm =>
      let pfx := remPfx p r
      let step : StepRes RemoteMap :=
        match dget erm r with
        | none => ⟨[⟨.warning, pfx, "unexpected remote"⟩], [], orm, none⟩
        | some em =>
            if em = [] then ⟨[⟨.warning, pfx, "unexpected remote"⟩], [], orm, none⟩
            else if modeMapOptEq em (dget orm r) then ⟨[], [], orm, none⟩
            else
              match dget orm r with
              | none =>
                  if !args.setUrls then
                    ⟨[⟨.debug, pfx, "remote sync needed"⟩,
                        ⟨.warning, pfx, "skipping (rerun with --set-urls)..."⟩],
                      [], orm, none⟩
                  else
                    match em with
                    | [] =>
                        ⟨[⟨.debug, pfx, "remote sync needed"⟩, ⟨.info, pfx, "adding..."⟩,
                            ⟨.error, pfx, "unable to add remote from expected modes"⟩],
                          [], orm, none⟩
                    | (_, u) :: _ =>
                        let a := Action.remoteAdd p r u
                        if args.exec a then
                          let om0 : ModeMap := [("fetch", u), ("push", u)]
                          let ms := syncModes args p r em
                            (sortedUnion (keys em) (keys om0)) om0
                          ⟨⟨.debug, pfx, "remote sync needed"⟩ ::
                              ⟨.info, pfx, "adding..."⟩ ::
                              ⟨.debug, pfx, "remote exists"⟩ :: ms.log,
                            a :: ms.actions, dset orm r ms.state, ms.abort⟩
                        else
                          ⟨[⟨.debug, pfx, "remote sync needed"⟩, ⟨.info, pfx, "adding..."⟩],
                            [a], orm, some (.calledProcessError a)⟩
              | some om =>
                  let ms := syncModes args p r em (sortedUnion (keys em) (keys om)) om
                  ⟨⟨.debug, pfx, "remote sync needed"⟩ ::
                      ⟨.debug, pfx, "remote exists"⟩ :: ms.log,
                    ms.actions, dset orm r ms.state, ms.abort⟩
      match step.abort with
      | some a => ⟨step.log, step.actions, step.state, some a⟩
      | none =>
          let rest := syncRemotes args p erm rs step.state
          ⟨step.log ++ rest.log, step.actions ++ rest.actions,
            rest.state, rest.abort⟩

/-- The informational tail of the per-project loop (`projects.py` lines
347-389): optional fetch (failure logged, non-fatal), then the
best-effort checks for local branches, stashed changes, and untracked
files.  Their captured output only produces logging and is not modelled
beyond the issued actions. -/
def postChecks (args : Args) (p : String) : List LogMsg × List Action :=
  let pfx := projPfx p
  let fetchLog : List LogMsg :=
    if args.fetch then
      if args.exec (Action.fetchAll p) then
        [⟨.info, pfx, "fetching all remotes..."⟩]
      else
        [⟨.info, pfx, "fetching all remotes..."⟩, ⟨.warning, pfx, "fetch failed"⟩]
    else []
  let fetchActs : List Action := if args.fetch then [Action.fetchAll p] else []
  (fetchLog ++
      [⟨.debug, pfx, "checking for branches..."⟩,
        ⟨.debug, pfx, "checking for stashed changes..."⟩,
        ⟨.debug, pfx, "checking for untracked files..."⟩],
    fetchActs ++ [Action.showRef p, Action.stashList p, Action.lsFiles p])

/-- Remote-scope reconciliation followed by the informational
post-checks (skipped when the remote loop aborted). -/
def syncAndPost (args : Args) (p : String) (erm : RemoteMap) (orm : RemoteMap) :
    StepRes (Option ObsVal) :=
  let res := syncRemotes args p erm (sortedUnion (keys erm) (keys orm)) orm
  match res.abort with
  | some a => ⟨res.log, res.actions, some (.ok res.state), some a⟩
  | none =>
      let post := postChecks args p
      ⟨res.log ++ post.1, res.actions ++ post.2, some (.ok res.state), none⟩

/-- The body of the per-project loop for a project whose observed query
did not fail (`projects.py` lines 214-389), given the expected entry and
the observed `RemoteMap` (`none` when the project is absent locally).
The `assert` on line 214 is modelled as an `assertionError` abort. -/
def processPresent (args : Args) (p : String)
    (expEntry : Option ObsVal) (obsRm : Option RemoteMap) : StepRes (Option ObsVal) :=
  let pfx := projPfx p
  match expEntry with
  | some (.queryFailed _) => ⟨[], [], obsRm.map .ok, some .assertionError⟩
  | none =>
      let post := postChecks args p
      ⟨⟨.warning, pfx, "unexpected project"⟩ :: post.1, post.2, obsRm.map .ok, none⟩
  | some (.ok erm) =>
      if remoteMapOptEq erm obsRm then
        let post := postChecks args p
        ⟨post.1, post.2, obsRm.map .ok, none⟩
      else
        match obsRm with
        | some orm =>
            let res := syncAndPost args p erm orm
            ⟨⟨.debug, pfx, "project sync needed"⟩ ::
                ⟨.debug, pfx, "clone exists"⟩ :: res.log,
              res.actions, res.state, res.abort⟩
        | none =>
            if !args.clone then
              ⟨[⟨.debug, pfx, "project sync needed"⟩,
                  ⟨.warning, pfx, "skipping (rerun with --clone)..."⟩],
                [], none, none⟩
            else
              let attempt := tryClone args p (fetchableRemoteUrls erm)
              match attempt.2.2 with
              | none =>
                  ⟨⟨.debug, pfx, "project sync needed"⟩ ::
                      ⟨.info, pfx, "cloning..."⟩ :: attempt.1,
                    attempt.2.1, none, none⟩
              | some (r, u) =>
                  let orm0 : RemoteMap := [(r, [("fetch", u), ("push", u)])]
                  let res := syncAndPost args p erm orm0
                  ⟨⟨.debug, pfx, "project sync needed"⟩ ::
                      ⟨.info, pfx, "cloning..."⟩ ::
                      (attempt.1 ++ ⟨.debug, pfx, "clone exists"⟩ :: res.log),
                    attempt.2.1 ++ res.actions, res.state, res.abort⟩

/-- One iteration of the per-project loop (`projects.py` lines 189-389):
filter by name pattern, report and abandon a failed state query, then
reconcile.  The resulting state is the final observed entry for `p`. -/
def processProject (args : Args) (p : String)
    (expEntry obsEntry : Option ObsVal) : StepRes (Option ObsVal) :=
  if args.pattern p = false then
    ⟨[⟨.debug, projPfx p, "ignoring..."⟩], [], obsEntry, none⟩
  else
    match obsEntry with
    | some (.queryFailed e) =>
        ⟨[⟨.error, projPfx p, e.trim⟩], [], obsEntry, none⟩
    | some (.ok orm) => processPresent args p expEntry (some orm)
    | none => processPresent args p expEntry none

/-- Store the final observed entry for `p` back into the topology:
`observed[project] = v` happened during processing when the entry is
present; an absent entry means the project is still missing locally. -/
def updEntry (obs : Topology) (p : String) : Option ObsVal → Topology
  | some v => dset obs p v
  | none => obs

/-- The per-project loop over a list of project names, threading the
observed topology; an uncaught exception stops the loop (later projects
are not processed). -/
def runFrom (args : Args) (expected : Topology) :
    List String → Topology → StepRes Topology
  | [], obs => ⟨[], [], obs, none⟩
  | p :: ps, obs =>
      let r := processProject args p (dget expected p) (dget obs p)
      let obs' := updEntry obs p r.state
      match r.abort with
      | some a => ⟨r.log, r.actions, obs', some a⟩
      | none =>
          let rest := runFrom args expected ps obs'
          ⟨r.log ++ rest.log, r.actions ++ rest.actions, rest.state, rest.abort⟩

/-- The whole reconciliation pass of `main` (`projects.py` lines
189-389): every project in `sorted(set(expected).union(observed))`. -/
def run (args : Args) (expected observed : Topology) : StepRes Topology :=
  runFrom args expected (sortedUnion (keys expected) (keys observed)) observed

/-- The exported snapshot (`projects.py` lines 397-408): the expected
topology with `CalledProcessError` values dropped, serialized with
`sort_keys=True`. -/
def exportSnapshot (expected : Topology) : List (String × RemoteMap) :=
  expected.filterMap (fun pv =>
    match pv.2 with
    | .ok rmu => some (pv.1, rmu)
    | .queryFailed _ => none)

/-- Stable sort of a dict by key, modelling `json.dump(..., sort_keys=True)`. -/
def insertSortedPair {β : Type} (x : String × β) :
    List (String × β) → List (String × β)
  | [] => [x]
  | y :: ys => if strLe x.1 y.1 then x :: y :: ys else y :: insertSortedPair x ys

/-- Insertion sort on dict entries by key. -/
def sortPairs {β : Type} : List (String × β) → List (String × β)
  | [] => []
  | x :: xs => insertSortedPair x (sortPairs xs)

/-- `--spec-create` (`projects.py` lines 391-411): open the destination
with mode `"w"` when overwrite was requested, else `"x"` (which fails
when the file exists), and write the filtered, key-sorted snapshot. -/
def specCreate (overwrite destExists : Bool) (expected : Topology) :
    Option (List (String × RemoteMap)) :=
  if destExists && !overwrite then none
  else some (sortPairs (exportSnapshot expected))

/-- `modeInv em om`: every truthy expected mode URL is already the
observed one — exactly the condition under which the mode loop issues
no corrective action. -/
def modeInv (em om : ModeMap) : Prop :=
  ∀ m u, dget em m = some u → u ≠ "" → dget om m = some u

/-- `remInv erm orm`: every truthy expected remote exists in the
observed map with an already-converged `ModeMap`. -/
def remInv (erm orm : RemoteMap) : Prop :=
  ∀ r em, dget erm r = some em → em ≠ [] →
    ∃ om, dget orm r = some om ∧ modeInv em om

/-- The candidates the clone loop actually attempts: every candidate up
to and including the first successful one (all of them when every clone
fails). -/
def attemptedCandidates (args : Args) (p : String) :
    List (String × String) → List (String × String)
  | [] => []
  | c :: rest =>
      if args.exec (Action.clone p c.1 c.2) then [c]
      else c :: attemptedCandidates args p rest

/-- A per-project state on which a rerun performs no corrective action,
leaves the observed entry unchanged, and does not abort. -/
def stableEntry (args : Args) (p : String) (e o : Option ObsVal) : Prop :=
  (processProject args p e o).actions.filter isCorrective = [] ∧
    (processProject args p e o).state = o ∧
    (processProject args p e o).abort = none

/-!  ## Concrete oracles used in claim instances  -/

/-- Oracle failing every `git remote add` call. -/
def addFailExec : Action → Bool
  | .remoteAdd .. => false
  | _ => true

/-- Oracle failing every `git clone` call. -/
def cloneFailExec : Action → Bool
  | .clone .. => false
  | _ => true

/-- Oracle failing only clones bound to origin label `a`. -/
def cloneAFailExec : Action → Bool
  | .clone _ "a" _ => false
  | _ => true

/-- Every command succeeds. -/
def allOkExec : Action → Bool := fun _ => true

/-- All-true name filter (the default pattern `.*`). -/
def allPat : String → Bool := fun _ => true

/-!  ## Dictionary lemmas  -/

theorem dget_cons {β : Type} (k0 k : String) (v0 : β) (tl : List (String × β)) :
    dget ((k0, v0) :: tl) k = if k0 = k then some v0 else dget tl k := rfl

theorem dset_cons {β : Type} (k0 k : String) (v0 v : β) (tl : List (String × β)) :
    dset ((k0, v0) :: tl) k v =
      if k0 = k then (k, v) :: tl else (k0, v0) :: dset tl k v := rfl

theorem keys_cons {β : Type} (k0 : String) (v0 : β) (tl : List (String × β)) :
    keys ((k0, v0) :: tl) = k0 :: keys tl := rfl

theorem dget_dset_self {β : Type} (l : List (String × β)) (k : String) (v : β) :
    dget (dset l k v) k = some v := by
  induction l with
  | nil => simp [dget, dset]
  | cons hd tl ih =>
      obtain ⟨k0, v0⟩ := hd
      by_cases h : k0 = k
      · simp [dget_cons, dset_cons, h]
      · simp [dget_cons, dset_cons, h, ih]

theorem dget_dset_ne {β : Type} (l : List (String × β)) (k k' : String) (v : β)
    (h : k' ≠ k) : dget (dset l k' v) k = dget l k := by
  induction l with
  | nil => simp [dget, dset, h]
  | cons hd tl ih =>
      obtain ⟨k0, v0⟩ := hd
      by_cases hh : k0 = k'
      · simp [dget_cons, dset_cons, hh, h, hh.symm ▸ h]
      · rw [dset_cons, if_neg hh, dget_cons, dget_cons]
        by_cases hk : k0 = k <;> simp [hk, ih]

theorem dset_dget_id {β : Type} (l : List (String × β)) (k : String) (v : β)
    (h : dget l k = some v) : dset l k v = l := by
  induction l with
  | nil => simp [dget] at h
  | cons hd tl ih =>
      obtain ⟨k0, v0⟩ := hd
      by_cases hh : k0 = k
      · rw [dget_cons, if_pos hh] at h
        cases h
        rw [dset_cons, if_pos hh, ← hh]
      · rw [dget_cons, if_neg hh] at h
        simp [dset_cons, hh, ih h]

theorem mem_keys_of_dget {β : Type} (l : List (String × β)) (k : String) (v : β)
    (h : dget l k = some v) : k ∈ keys l := by
  induction l with
  | nil => simp [dget] at h
  | cons hd tl ih =>
      obtain ⟨k0, v0⟩ := hd
      by_cases hh : k0 = k
      · simp [keys_cons, ← hh]
      · rw [dget_cons, if_neg hh] at h
        rw [keys_cons]
        exact List.mem_cons_of_mem _ (ih h)

theorem dget_eq_none_of_not_mem {β : Type} (l : List (String × β)) (k : String)
    (h : k ∉ keys l) : dget l k = none := by
  induction l with
  | nil => rfl
  | cons hd tl ih =>
      obtain ⟨k0, v0⟩ := hd
      rw [keys_cons, List.mem_cons] at h
      push_neg at h
      rw [dget_cons, if_neg (fun he => h.1 he.symm)]
      exact ih h.2

theorem mem_of_dget_some {β : Type} (l : List (String × β)) (k : String) (v : β)
    (h : dget l k = some v) : (k, v) ∈ l := by
  induction l with
  | nil => simp [dget] at h
  | cons hd tl ih =>
      obtain ⟨k0, v0⟩ := hd
      by_cases hh : k0 = k
      · rw [dget_cons, if_pos hh] at h
        cases h
        exact hh ▸ List.mem_cons_self _ _
      · rw [dget_cons, if_neg hh] at h
        exact List.mem_cons_of_mem _ (ih h)

theorem dget_of_mem_nodup {β : Type} (l : List (String × β)) (k : String) (v : β)
    (hm : (k, v) ∈ l) (hn : (keys l).Nodup) : dget l k = some v := by
  induction l with
  | nil => simp at hm
  | cons hd tl ih =>
      obtain ⟨k0, v0⟩ := hd
      rw [keys_cons, List.nodup_cons] at hn
      rcases List.mem_cons.1 hm with h | h
      · cases h
        simp [dget_cons]
      · have hk : k ∈ keys tl := List.mem_map_of_mem Prod.fst h
        have hne : k0 ≠ k := fun he => hn.1 (he ▸ hk)
        rw [dget_cons, if_neg hne]
        exact ih h hn.2

theorem mem_keys_dset {β : Type} (l : List (String × β)) (k k' : String) (v : β)
    (h : k' ∈ keys (dset l k v)) : k' = k ∨ k' ∈ keys l := by
  induction l with
  | nil =>
      simp [dset, keys] at h
      exact Or.inl h
  | cons hd tl ih =>
      obtain ⟨k0, v0⟩ := hd
      by_cases hh : k0 = k
      · rw [dset_cons, if_pos hh, keys_cons, List.mem_cons] at h
        rcases h with h | h
        · exact Or.inl h
        · exact Or.inr (by rw [keys_cons]; exact List.mem_cons_of_mem _ h)
      · rw [dset_cons, if_neg hh, keys_cons, List.mem_cons] at h
        rcases h with h | h
        · exact Or.inr (by rw [keys_cons, h]; exact List.mem_cons_self _ _)
        · rcases ih h with h' | h'
          · exact Or.inl h'
          · exact Or.inr (by rw [keys_cons]; exact List.mem_cons_of_mem _ h')

/-!  ## Sorting lemmas  -/

theorem insertSorted_perm (x : String) (l : List String) :
    List.Perm (insertSorted x l) (x :: l) := by
  induction l with
  | nil => rfl
  | cons y ys ih =>
      by_cases h : strLe x y
      · simp [insertSorted, h]
      · rw [insertSorted, if_neg (by simp [h])]
        exact (ih.cons y).trans (List.Perm.swap x y ys)

theorem sortStr_perm (l : List String) : List.Perm (sortStr l) l := by
  induction l with
  | nil => rfl
  | cons x xs ih =>
      exact (insertSorted_perm x (sortStr xs)).trans (ih.cons x)

theorem mem_sortStr (a : String) (l : List String) : a ∈ sortStr l ↔ a ∈ l :=
  (sortStr_perm l).mem_iff

theorem nodup_sortStr (l : List String) (h : l.Nodup) : (sortStr l).Nodup :=
  ((sortStr_perm l).nodup_iff).2 h

theorem mem_sortedUnion (a : String) (xs ys : List String) :
    a ∈ sortedUnion xs ys ↔ a ∈ xs ∨ a ∈ ys := by
  unfold sortedUnion
  rw [mem_sortStr, List.mem_dedup, List.mem_append]

theorem nodup_sortedUnion (xs ys : List String) : (sortedUnion xs ys).Nodup :=
  nodup_sortStr _ (List.nodup_dedup _)

/-!  ## Dict-equality lemmas  -/

theorem modeMapEq_dget (a b : ModeMap) (h : modeMapEq a b = true)
    (k u : String) (hk : dget a k = some u) : dget b k = some u := by
  unfold modeMapEq at h
  rw [Bool.and_eq_true, List.all_eq_true] at h
  have hmem := mem_keys_of_dget a k u hk
  have heq := h.1 k hmem
  rw [beq_iff_eq] at heq
  rw [← heq, hk]

theorem modeMapOptEq_some (em : ModeMap) (o : Option ModeMap)
    (h : modeMapOptEq em o = true) :
    ∃ om, o = some om ∧ modeMapEq em om = true := by
  cases o with
  | none => simp [modeMapOptEq] at h
  | some om => exact ⟨om, rfl, h⟩

theorem modeInv_of_modeMapEq (em om : ModeMap) (h : modeMapEq em om = true) :
    modeInv em om := fun m u hm _ => modeMapEq_dget em om h m u hm

/-!  ## Mode-loop lemmas  -/

theorem syncModes_nil (args : Args) (p r : String) (em : ModeMap) (om : ModeMap) :
    syncModes args p r em [] om = ⟨[], [], om, none⟩ := rfl

theorem syncModes_cons_absent (args : Args) (p r : String) (em : ModeMap)
    (m : String) (ms : List String) (om : ModeMap) (hm : dget em m = none) :
    syncModes args p r em (m :: ms) om =
      ⟨⟨.warning, modePfx p r m, "unexpected mode"⟩ ::
          (syncModes args p r em ms om).log,
        (syncModes args p r em ms om).actions,
        (syncModes args p r em ms om).state,
        (syncModes args p r em ms om).abort⟩ := by
  rw [syncModes, hm]

theorem syncModes_cons_empty (args : Args) (p r : String) (em : ModeMap)
    (m : String) (ms : List String) (om : ModeMap) (hm : dget em m = some "") :
    syncModes args p r em (m :: ms) om =
      ⟨⟨.warning, modePfx p r m, "unexpected mode"⟩ ::
          (syncModes args p r em ms om).log,
        (syncModes args p r em ms om).actions,
        (syncModes args p r em ms om).state,
        (syncModes args p r em ms om).abort⟩ := by
  rw [syncModes, hm]
  simp

theorem syncModes_cons_match (args : Args) (p r : String) (em : ModeMap)
    (m : String) (ms : List String) (om : ModeMap) (eu : String)
    (hm : dget em m = some eu) (he : eu ≠ "") (hq : dget om m = some eu) :
    syncModes args p r em (m :: ms) om = syncModes args p r em ms om := by
  rw [syncModes, hm]
  simp [he, hq]

theorem syncModes_cons_skip (args : Args) (p r : String) (em : ModeMap)
    (m : String) (ms : List String) (om : ModeMap) (eu : String)
    (hm : dget em m = some eu) (he : eu ≠ "") (hq : dget om m ≠ some eu)
    (hsu : args.setUrls = false) :
    syncModes args p r em (m :: ms) om =
      ⟨⟨.debug, modePfx p r m, "mode sync needed"⟩ ::
          ⟨.warning, modePfx p r m, "skipping (rerun with --set-urls)..."⟩ ::
          (syncModes args p r em ms om).log,
        (syncModes args p r em ms om).actions,
        (syncModes args p r em ms om).state,
        (syncModes args p r em ms om).abort⟩ := by
  rw [syncModes, hm]
  simp [he, hq, hsu]

theorem syncModes_cons_set (args : Args) (p r : String) (em : ModeMap)
    (m : String) (ms : List String) (om : ModeMap) (eu : String)
    (hm : dget em m = some eu) (he : eu ≠ "") (hq : dget om m ≠ some eu)
    (hsu : args.setUrls = true)
    (hx : args.exec (Action.setUrl p r (decide (m = "push")) eu) = true) :
    syncModes args p r em (m :: ms) om =
      ⟨⟨.debug, modePfx p r m, "mode sync needed"⟩ ::
          ⟨.info, modePfx p r m, "changing..."⟩ ::
          (syncModes args p r em ms (dset om m eu)).log,
        Action.setUrl p r (decide (m = "push")) eu ::
          (syncModes args p r em ms (dset om m eu)).actions,
        (syncModes args p r em ms (dset om m eu)).state,
        (syncModes args p r em ms (dset om m eu)).abort⟩ := by
  rw [syncModes, hm]
  simp [he, hq, hsu, hx]

theorem syncModes_cons_fail (args : Args) (p r : String) (em : ModeMap)
    (m : String) (ms : List String) (om : ModeMap) (eu : String)
    (hm : dget em m = some eu) (he : eu ≠ "") (hq : dget om m ≠ some eu)
    (hsu : args.setUrls = true)
    (hx : args.exec (Action.setUrl p r (decide (m = "push")) eu) = false) :
    syncModes args p r em (m :: ms) om =
      ⟨[⟨.debug, modePfx p r m, "mode sync needed"⟩,
          ⟨.info, modePfx p r m, "changing..."⟩],
        [Action.setUrl p r (decide (m = "push")) eu], om,
        some (.calledProcessError (Action.setUrl p r (decide (m = "push")) eu))⟩ := by
  rw [syncModes, hm]
  simp [he, hq, hsu, hx]

theorem syncModes_actions_setUrl (args : Args) (p r : String) (em : ModeMap)
    (ms : List String) (om : ModeMap) :
    ∀ a ∈ (syncModes args p r em ms om).actions, ∃ b u, a = Action.setUrl p r b u := by
  induction ms generalizing om with
  | nil => simp [syncModes_nil]
  | cons m ms ih =>
      intro a ha
      rcases hm : dget em m with _ | eu
      · rw [syncModes_cons_absent args p r em m ms om hm] at ha
        exact ih om a ha
      · by_cases he : eu = ""
        · rw [syncModes_cons_empty args p r em m ms om (he ▸ hm)] at ha
          exact ih om a ha
        · by_cases hq : dget om m = some eu
          · rw [syncModes_cons_match args p r em m ms om eu hm he hq] at ha
            exact ih om a ha
          · cases hsu : args.setUrls with
            | false =>
                rw [syncModes_cons_skip args p r em m ms om eu hm he hq hsu] at ha
                exact ih om a ha
            | true =>
                cases hx : args.exec (Action.setUrl p r (decide (m = "push")) eu) with
                | true =>
                    rw [syncModes_cons_set args p r em m ms om eu hm he hq hsu hx] at ha
                    rcases List.mem_cons.1 ha with h | h
                    · exact ⟨_, _, h⟩
                    · exact ih _ a h
                | false =>
                    rw [syncModes_cons_fail args p r em m ms om eu hm he hq hsu hx] at ha
                    exact ⟨_, _, List.mem_singleton.1 ha⟩

theorem syncModes_abort_shape (args : Args) (p r : String) (em : ModeMap)
    (ms : List String) (om : ModeMap) (ab : Abort)
    (h : (syncModes args p r em ms om).abort = some ab) :
    ∃ a, ab = Abort.calledProcessError a ∧ args.exec a = false ∧
      a ∈ (syncModes args p r em ms om).actions ∧ isChecked a = true := by
  induction ms generalizing om with
  | nil => simp [syncModes_nil] at h
  | cons m ms ih =>
      rcases hm : dget em m with _ | eu
      · rw [syncModes_cons_absent args p r em m ms om hm] at h ⊢
        exact ih om h
      · by_cases he : eu = ""
        · rw [syncModes_cons_empty args p r em m ms om (he ▸ hm)] at h ⊢
          exact ih om h
        · by_cases hq : dget om m = some eu
          · rw [syncModes_cons_match args p r em m ms om eu hm he hq] at h ⊢
            exact ih om h
          · cases hsu : args.setUrls with
            | false =>
                rw [syncModes_cons_skip args p r em m ms om eu hm he hq hsu] at h ⊢
                exact ih om h
            | true =>
                cases hx : args.exec (Action.setUrl p r (decide (m = "push")) eu) with
                | true =>
                    rw [syncModes_cons_set args p r em m ms om eu hm he hq hsu hx] at h ⊢
                    rcases ih _ h with ⟨a, h1, h2, h3, h4⟩
                    exact ⟨a, h1, h2, List.mem_cons_of_mem _ h3, h4⟩
                | false =>
                    rw [syncModes_cons_fail args p r em m ms om eu hm he hq hsu hx] at h ⊢
                    simp only [Option.some_inj] at h
                    exact ⟨_, h.symm, hx, List.mem_singleton_self _, rfl⟩

theorem syncModes_frame (args : Args) (p r : String) (em : ModeMap)
    (ms : List String) (om : ModeMap) (m0 : String) (hm0 : m0 ∉ ms) :
    dget (syncModes args p r em ms om).state m0 = dget om m0 := by
  induction ms generalizing om with
  | nil => simp [syncModes_nil]
  | cons m ms ih =>
      have hne : m ≠ m0 := fun he => hm0 (he ▸ List.mem_cons_self _ _)
      have hms : m0 ∉ ms := fun he => hm0 (List.mem_cons_of_mem _ he)
      rcases hm : dget em m with _ | eu
      · rw [syncModes_cons_absent args p r em m ms om hm]
        exact ih om hms
      · by_cases he : eu = ""
        · rw [syncModes_cons_empty args p r em m ms om (he ▸ hm)]
          exact ih om hms
        · by_cases hq : dget om m = some eu
          · rw [syncModes_cons_match args p r em m ms om eu hm he hq]
            exact ih om hms
          · cases hsu : args.setUrls with
            | false =>
                rw [syncModes_cons_skip args p r em m ms om eu hm he hq hsu]
                exact ih om hms
            | true =>
                cases hx : args.exec (Action.setUrl p r (decide (m = "push")) eu) with
                | true =>
                    rw [syncModes_cons_set args p r em m ms om eu hm he hq hsu hx]
                    rw [ih _ hms]
                    exact dget_dset_ne om m0 m eu hne
                | false =>
                    rw [syncModes_cons_fail args p r em m ms om eu hm he hq hsu hx]

theorem syncModes_establish (args : Args) (p r : String) (em : ModeMap)
    (ms : List String) (om : ModeMap)
    (hsu : args.setUrls = true) (hnd : ms.Nodup)
    (hok : ∀ a ∈ (syncModes args p r em ms om).actions, args.exec a = true) :
    (syncModes args p r em ms om).abort = none ∧
      ∀ m ∈ ms, ∀ u, dget em m = some u → u ≠ "" →
        dget (syncModes args p r em ms om).state m = some u := by
  induction ms generalizing om with
  | nil => simp [syncModes_nil]
  | cons m ms ih =>
      rw [List.nodup_cons] at hnd
      rcases hm : dget em m with _ | eu
      · rw [syncModes_cons_absent args p r em m ms om hm] at hok ⊢
        refine ⟨(ih om hnd.2 hok).1, ?_⟩
        intro m' hm' u hu hne
        rcases List.mem_cons.1 hm' with h | h
        · subst h
          rw [hm] at hu
          cases hu
        · exact (ih om hnd.2 hok).2 m' h u hu hne
      · by_cases he : eu = ""
        · rw [syncModes_cons_empty args p r em m ms om (he ▸ hm)] at hok ⊢
          refine ⟨(ih om hnd.2 hok).1, ?_⟩
          intro m' hm' u hu hne
          rcases List.mem_cons.1 hm' with h | h
          · subst h
            rw [hm] at hu
            cases hu
            exact absurd he hne
          · exact (ih om hnd.2 hok).2 m' h u hu hne
        · by_cases hq : dget om m = some eu
          · rw [syncModes_cons_match args p r em m ms om eu hm he hq] at hok ⊢
            refine ⟨(ih om hnd.2 hok).1, ?_⟩
            intro m' hm' u hu hne
            rcases List.mem_cons.1 hm' with h | h
            · subst h
              rw [hm] at hu
              cases hu
              rw [syncModes_frame args p r em ms om m' hnd.1, hq]
            · exact (ih om hnd.2 hok).2 m' h u hu hne
          · cases hx : args.exec (Action.setUrl p r (decide (m = "push")) eu) with
            | false =>
                rw [syncModes_cons_fail args p r em m ms om eu hm he hq hsu hx] at hok
                exact absurd (hok _ (List.mem_singleton_self _)) (by simp [hx])
            | true =>
                rw [syncModes_cons_set args p r em m ms om eu hm he hq hsu hx] at hok ⊢
                have hok' : ∀ a ∈ (syncModes args p r em ms (dset om m eu)).actions,
                    args.exec a = true := fun a ha => hok a (List.mem_cons_of_mem _ ha)
                refine ⟨(ih _ hnd.2 hok').1, ?_⟩
                intro m' hm' u hu hne
                rcases List.mem_cons.1 hm' with h | h
                · subst h
                  rw [hm] at hu
                  cases hu
                  rw [syncModes_frame args p r em ms _ m' hnd.1, dget_dset_self]
                · exact (ih _ hnd.2 hok').2 m' h u hu hne

theorem syncModes_stable (args : Args) (p r : String) (em : ModeMap)
    (ms : List String) (om : ModeMap) (hinv : modeInv em om) :
    (syncModes args p r em ms om).actions = [] ∧
      (syncModes args p r em ms om).state = om ∧
      (syncModes args p r em ms om).abort = none := by
  induction ms with
  | nil => simp [syncModes_nil]
  | cons m ms ih =>
      rcases hm : dget em m with _ | eu
      · rw [syncModes_cons_absent args p r em m ms om hm]
        exact ih
      · by_cases he : eu = ""
        · rw [syncModes_cons_empty args p r em m ms om (he ▸ hm)]
          exact ih
        · rw [syncModes_cons_match args p r em m ms om eu hm he (hinv m eu hm he)]
          exact ih

theorem syncModes_checked (args : Args) (p r : String) (em : ModeMap)
    (ms : List String) (om : ModeMap)
    (h : (syncModes args p r em ms om).abort = none) :
    ∀ a ∈ (syncModes args p r em ms om).actions, args.exec a = true := by
  induction ms generalizing om with
  | nil => simp [syncModes_nil]
  | cons m ms ih =>
      rcases hm : dget em m with _ | eu
      · rw [syncModes_cons_absent args p r em m ms om hm] at h ⊢
        exact ih om h
      · by_cases he : eu = ""
        · rw [syncModes_cons_empty args p r em m ms om (he ▸ hm)] at h ⊢
          exact ih om h
        · by_cases hq : dget om m = some eu
          · rw [syncModes_cons_match args p r em m ms om eu hm he hq] at h ⊢
            exact ih om h
          · cases hsu : args.setUrls with
            | false =>
                rw [syncModes_cons_skip args p r em m ms om eu hm he hq hsu] at h ⊢
                exact ih om h
            | true =>
                cases hx : args.exec (Action.setUrl p r (decide (m = "push")) eu) with
                | true =>
                    rw [syncModes_cons_set args p r em m ms om eu hm he hq hsu hx] at h ⊢
                    intro a ha
                    rcases List.mem_cons.1 ha with h' | h'
                    · rw [h']
                      exact hx
                    · exact ih _ h a h'
                | false =>
                    rw [syncModes_cons_fail args p r em m ms om eu hm he hq hsu hx] at h
                    cases h

/-!  ## Remote-loop lemmas  -/

theorem syncRemotes_nil (args : Args) (p : String) (erm : RemoteMap)
    (orm : RemoteMap) : syncRemotes args p erm [] orm = ⟨[], [], orm, none⟩ := rfl

theorem syncRemotes_cons_absent (args : Args) (p : String) (erm : RemoteMap)
    (r : String) (rs : List String) (orm : RemoteMap) (hm : dget erm r = none) :
    syncRemotes args p erm (r :: rs) orm =
      ⟨⟨.warning, remPfx p r, "unexpected remote"⟩ ::
          (syncRemotes args p erm rs orm).log,
        (syncRemotes args p erm rs orm).actions,
        (syncRemotes args p erm rs orm).state,
        (syncRemotes args p erm rs orm).abort⟩ := by
  rw [syncRemotes, hm]
  simp

theorem syncRemotes_cons_empty (args : Args) (p : String) (erm : RemoteMap)
    (r : String) (rs : List String) (orm : RemoteMap) (hm : dget erm r = some []) :
    syncRemotes args p erm (r :: rs) orm =
      ⟨⟨.warning, remPfx p r, "unexpected remote"⟩ ::
          (syncRemotes args p erm rs orm).log,
        (syncRemotes args p erm rs orm).actions,
        (syncRemotes args p erm rs orm).state,
        (syncRemotes args p erm rs orm).abort⟩ := by
  rw [syncRemotes, hm]
  simp

theorem syncRemotes_cons_eq (args : Args) (p : String) (erm : RemoteMap)
    (r : String) (rs : List String) (orm : RemoteMap) (em : ModeMap)
    (hm : dget erm r = some em) (hne : em ≠ [])
    (heq : modeMapOptEq em (dget orm r) = true) :
    syncRemotes args p erm (r :: rs) orm = syncRemotes args p erm rs orm := by
  rw [syncRemotes, hm]
  simp [hne, heq]

theorem syncRemotes_cons_skip (args : Args) (p : String) (erm : RemoteMap)
    (r : String) (rs : List String) (orm : RemoteMap) (em : ModeMap)
    (hm : dget erm r = some em) (hne : em ≠ [])
    (ho : dget orm r = none) (hsu : args.setUrls = false) :
    syncRemotes args p erm (r :: rs) orm =
      ⟨⟨.debug, remPfx p r, "remote sync needed"⟩ ::
          ⟨.warning, remPfx p r, "skipping (rerun with --set-urls)..."⟩ ::
          (syncRemotes args p erm rs orm).log,
        (syncRemotes args p erm rs orm).actions,
        (syncRemotes args p erm rs orm).state,
        (syncRemotes args p erm rs orm).abort⟩ := by
  rw [syncRemotes, hm]
  simp [modeMapOptEq, hne, ho, hsu]

theorem syncRemotes_cons_addFail (args : Args) (p : String) (erm : RemoteMap)
    (r : String) (rs : List String) (orm : RemoteMap)
    (m0 u0 : String) (em' : ModeMap)
    (hm : dget erm r = some ((m0, u0) :: em'))
    (ho : dget orm r = none) (hsu : args.setUrls = true)
    (hx : args.exec (Action.remoteAdd p r u0) = false) :
    syncRemotes args p erm (r :: rs) orm =
      ⟨[⟨.debug, remPfx p r, "remote sync needed"⟩, ⟨.info, remPfx p r, "adding..."⟩],
        [Action.remoteAdd p r u0], orm,
        some (.calledProcessError (Action.remoteAdd p r u0))⟩ := by
  rw [syncRemotes, hm]
  simp [modeMapOptEq, ho, hsu, hx]

theorem syncRemotes_cons_addOk (args : Args) (p : String) (erm : RemoteMap)
    (r : String) (rs : List String) (orm : RemoteMap)
    (m0 u0 : String) (em' : ModeMap)
    (hm : dget erm r = some ((m0, u0) :: em'))
    (ho : dget orm r = none) (hsu : args.setUrls = true)
    (hx : args.exec (Action.remoteAdd p r u0) = true)
    (hM : (syncModes args p r ((m0, u0) :: em')
        (sortedUnion (keys ((m0, u0) :: em')) (keys [("fetch", u0), ("push", u0)]))
        [("fetch", u0), ("push", u0)]).abort = none) :
    syncRemotes args p erm (r :: rs) orm =
      ⟨⟨.debug, remPfx p r, "remote sync needed"⟩ ::
          ⟨.info, remPfx p r, "adding..."⟩ ::
          ⟨.debug, remPfx p r, "remote exists"⟩ ::
          ((syncModes args p r ((m0, u0) :: em')
              (sortedUnion (keys ((m0, u0) :: em')) (keys [("fetch", u0), ("push", u0)]))
              [("fetch", u0), ("push", u0)]).log ++
            (syncRemotes args p erm rs
              (dset orm r (syncModes args p r ((m0, u0) :: em')
                (sortedUnion (keys ((m0, u0) :: em'))
                  (keys [("fetch", u0), ("push", u0)]))
                [("fetch", u0), ("push", u0)]).state)).log),
        Action.remoteAdd p r u0 ::
          ((syncModes args p r ((m0, u0) :: em')
              (sortedUnion (keys ((m0, u0) :: em')) (keys [("fetch", u0), ("push", u0)]))
              [("fetch", u0), ("push", u0)]).actions ++
            (syncRemotes args p erm rs
              (dset orm r (syncModes args p r ((m0, u0) :: em')
                (sortedUnion (keys ((m0, u0) :: em'))
                  (keys [("fetch", u0), ("push", u0)]))
                [("fetch", u0), ("push", u0)]).state)).actions),
        (syncRemotes args p erm rs
          (dset orm r (syncModes args p r ((m0, u0) :: em')
            (sortedUnion (keys ((m0, u0) :: em'))
              (keys [("fetch", u0), ("push", u0)]))
            [("fetch", u0), ("push", u0)]).state)).state,
        (syncRemotes args p erm rs
          (dset orm r (syncModes args p r ((m0, u0) :: em')
            (sortedUnion (keys ((m0, u0) :: em'))
              (keys [("fetch", u0), ("push", u0)]))
            [("fetch", u0), ("push", u0)]).state)).abort⟩ := by
  rw [syncRemotes, hm]
  simp [modeMapOptEq, ho, hsu, hx, hM]

theorem syncRemotes_cons_addAbort (args : Args) (p : String) (erm : RemoteMap)
    (r : String) (rs : List String) (orm : RemoteMap)
    (m0 u0 : String) (em' : ModeMap) (ab : Abort)
    (hm : dget erm r = some ((m0, u0) :: em'))
    (ho : dget orm r = none) (hsu : args.setUrls = true)
    (hx : args.exec (Action.remoteAdd p r u0) = true)
    (hM : (syncModes args p r ((m0, u0) :: em')
        (sortedUnion (keys ((m0, u0) :: em')) (keys [("fetch", u0), ("push", u0)]))
        [("fetch", u0), ("push", u0)]).abort = some ab) :
    syncRemotes args p erm (r :: rs) orm =
      ⟨⟨.debug, remPfx p r, "remote sync needed"⟩ ::
          ⟨.info, remPfx p r, "adding..."⟩ ::
          ⟨.debug, remPfx p r, "remote exists"⟩ ::
          (syncModes args p r ((m0, u0) :: em')
            (sortedUnion (keys ((m0, u0) :: em')) (keys [("fetch", u0), ("push", u0)]))
            [("fetch", u0), ("push", u0)]).log,
        Action.remoteAdd p r u0 ::
          (syncModes args p r ((m0, u0) :: em')
            (sortedUnion (keys ((m0, u0) :: em')) (keys [("fetch", u0), ("push", u0)]))
            [("fetch", u0), ("push", u0)]).actions,
        dset orm r (syncModes args p r ((m0, u0) :: em')
          (sortedUnion (keys ((m0, u0) :: em')) (keys [("fetch", u0), ("push", u0)]))
          [("fetch", u0), ("push", u0)]).state,
        some ab⟩ := by
  rw [syncRemotes, hm]
  simp [modeMapOptEq, ho, hsu, hx, hM]

theorem syncRemotes_cons_syncOk (args : Args) (p : String) (erm : RemoteMap)
    (r : String) (rs : List String) (orm : RemoteMap) (em om : ModeMap)
    (hm : dget erm r = some em) (hne : em ≠ [])
    (hq : modeMapEq em om = false) (ho : dget orm r = some om)
    (hM : (syncModes args p r em (sortedUnion (keys em) (keys om)) om).abort = none) :
    syncRemotes args p erm (r :: rs) orm =
      ⟨⟨.debug, remPfx p r, "remote sync needed"⟩ ::
          ⟨.debug, remPfx p r, "remote exists"⟩ ::
          ((syncModes args p r em (sortedUnion (keys em) (keys om)) om).log ++
            (syncRemotes args p erm rs
              (dset orm r (syncModes args p r em
                (sortedUnion (keys em) (keys om)) om).state)).log),
        (syncModes args p r em (sortedUnion (keys em) (keys om)) om).actions ++
          (syncRemotes args p erm rs
            (dset orm r (syncModes args p r em
              (sortedUnion (keys em) (keys om)) om).state)).actions,
        (syncRemotes args p erm rs
          (dset orm r (syncModes args p r em
            (sortedUnion (keys em) (keys om)) om).state)).state,
        (syncRemotes args p erm rs
          (dset orm r (syncModes args p r em
            (sortedUnion (keys em) (keys om)) om).state)).abort⟩ := by
  rw [syncRemotes, hm]
  simp [modeMapOptEq, hne, hq, ho, hM]

theorem syncRemotes_cons_syncAbort (args : Args) (p : String) (erm : RemoteMap)
    (r : String) (rs : List String) (orm : RemoteMap) (em om : ModeMap) (ab : Abort)
    (hm : dget erm r = some em) (hne : em ≠ [])
    (hq : modeMapEq em om = false) (ho : dget orm r = some om)
    (hM : (syncModes args p r em (sortedUnion (keys em) (keys om)) om).abort
        = some ab) :
    syncRemotes args p erm (r :: rs) orm =
      ⟨⟨.debug, remPfx p r, "remote sync needed"⟩ ::
          ⟨.debug, remPfx p r, "remote exists"⟩ ::
          (syncModes args p r em (sortedUnion (keys em) (keys om)) om).log,
        (syncModes args p r em (sortedUnion (keys em) (keys om)) om).actions,
        dset orm r (syncModes args p r em (sortedUnion (keys em) (keys om)) om).state,
        some ab⟩ := by
  rw [syncRemotes, hm]
  simp [modeMapOptEq, hne, hq, ho, hM]

theorem syncRemotes_no_clone (args : Args) (p : String) (erm : RemoteMap)
    (rs : List String) (orm : RemoteMap) :
    ∀ a ∈ (syncRemotes args p erm rs orm).actions, isClone a = false := by
  induction rs generalizing orm with
  | nil => simp [syncRemotes_nil]
  | cons r rs ih =>
      intro a ha
      rcases hm : dget erm r with _ | em
      · rw [syncRemotes_cons_absent args p erm r rs orm hm] at ha
        exact ih orm a ha
      · by_cases hne : em = []
        · rw [syncRemotes_cons_empty args p erm r rs orm (hne ▸ hm)] at ha
          exact ih orm a ha
        · cases heq : modeMapOptEq em (dget orm r) with
          | true =>
              rw [syncRemotes_cons_eq args p erm r rs orm em hm hne heq] at ha
              exact ih orm a ha
          | false =>
              rcases ho : dget orm r with _ | om
              · cases hsu : args.setUrls with
                | false =>
                    rw [syncRemotes_cons_skip args p erm r rs orm em hm hne ho hsu] at ha
                    exact ih orm a ha
                | true =>
                    rcases em with _ | ⟨⟨m0, u0⟩, em'⟩
                    · exact absurd rfl hne
                    · cases hx : args.exec (Action.remoteAdd p r u0) with
                      | false =>
                          rw [syncRemotes_cons_addFail args p erm r rs orm
                            m0 u0 em' hm ho hsu hx] at ha
                          rw [List.mem_singleton.1 ha]
                          rfl
                      | true =>
                          rcases hM : (syncModes args p r ((m0, u0) :: em')
                              (sortedUnion (keys ((m0, u0) :: em'))
                                (keys [("fetch", u0), ("push", u0)]))
                              [("fetch", u0), ("push", u0)]).abort with _ | ab
                          · rw [syncRemotes_cons_addOk args p erm r rs orm
                              m0 u0 em' hm ho hsu hx hM] at ha
                            rcases List.mem_cons.1 ha with h | h
                            · rw [h]
                              rfl
                            · rcases List.mem_append.1 h with h' | h'
                              · rcases syncModes_actions_setUrl args p r _ _ _ a h'
                                  with ⟨b, u, hb⟩
                                rw [hb]
                                rfl
                              · exact ih _ a h'
                          · rw [syncRemotes_cons_addAbort args p erm r rs orm
                              m0 u0 em' ab hm ho hsu hx hM] at ha
                            rcases List.mem_cons.1 ha with h | h
                            · rw [h]
                              rfl
                            · rcases syncModes_actions_setUrl args p r _ _ _ a h
                                with ⟨b, u, hb⟩
                              rw [hb]
                              rfl
              · have hq : modeMapEq em om = false := by
                  rw [ho] at heq
                  simpa [modeMapOptEq] using heq
                rcases hM : (syncModes args p r em
                    (sortedUnion (keys em) (keys om)) om).abort with _ | ab
                · rw [syncRemotes_cons_syncOk args p erm r rs orm em om
                    hm hne hq ho hM] at ha
                  rcases List.mem_append.1 ha with h' | h'
                  · rcases syncModes_actions_setUrl args p r _ _ _ a h' with ⟨b, u, hb⟩
                    rw [hb]
                    rfl
                  · exact ih _ a h'
                · rw [syncRemotes_cons_syncAbort args p erm r rs orm em om ab
                    hm hne hq ho hM] at ha
                  rcases syncModes_actions_setUrl args p r _ _ _ a ha with ⟨b, u, hb⟩
                  rw [hb]
                  rfl

theorem syncRemotes_abort_shape (args : Args) (p : String) (erm : RemoteMap)
    (rs : List String) (orm : RemoteMap) (ab : Abort)
    (h : (syncRemotes args p erm rs orm).abort = some ab) :
    ∃ a, ab = Abort.calledProcessError a ∧ args.exec a = false ∧
      a ∈ (syncRemotes args p erm rs orm).actions ∧ isChecked a = true := by
  induction rs generalizing orm with
  | nil => simp [syncRemotes_nil] at h
  | cons r rs ih =>
      rcases hm : dget erm r with _ | em
      · rw [syncRemotes_cons_absent args p erm r rs orm hm] at h ⊢
        exact ih orm h
      · by_cases hne : em = []
        · rw [syncRemotes_cons_empty args p erm r rs orm (hne ▸ hm)] at h ⊢
          exact ih orm h
        · cases heq : modeMapOptEq em (dget orm r) with
          | true =>
              rw [syncRemotes_cons_eq args p erm r rs orm em hm hne heq] at h ⊢
              exact ih orm h
          | false =>
              rcases ho : dget orm r with _ | om
              · cases hsu : args.setUrls with
                | false =>
                    rw [syncRemotes_cons_skip args p erm r rs orm em hm hne ho hsu]
                      at h ⊢
                    exact ih orm h
                | true =>
                    rcases em with _ | ⟨⟨m0, u0⟩, em'⟩
                    · exact absurd rfl hne
                    · cases hx : args.exec (Action.remoteAdd p r u0) with
                      | false =>
                          rw [syncRemotes_cons_addFail args p erm r rs orm
                            m0 u0 em' hm ho hsu hx] at h ⊢
                          simp only [Option.some_inj] at h
                          exact ⟨_, h.symm, hx, List.mem_singleton_self _, rfl⟩
                      | true =>
                          rcases hM : (syncModes args p r ((m0, u0) :: em')
                              (sortedUnion (keys ((m0, u0) :: em'))
                                (keys [("fetch", u0), ("push", u0)]))
                              [("fetch", u0), ("push", u0)]).abort with _ | ab'
                          · rw [syncRemotes_cons_addOk args p erm r rs orm
                              m0 u0 em' hm ho hsu hx hM] at h ⊢
                            rcases ih _ h with ⟨a, h1, h2, h3, h4⟩
                            exact ⟨a, h1, h2, List.mem_cons_of_mem _
                              (List.mem_append.2 (Or.inr h3)), h4⟩
                          · rw [syncRemotes_cons_addAbort args p erm r rs orm
                              m0 u0 em' ab' hm ho hsu hx hM] at h ⊢
                            simp only [Option.some_inj] at h
                            rcases syncModes_abort_shape args p r _ _ _ ab' hM
                              with ⟨a, h1, h2, h3, h4⟩
                            exact ⟨a, h ▸ h1, h2, List.mem_cons_of_mem _ h3, h4⟩
              · have hq : modeMapEq em om = false := by
                  rw [ho] at heq
                  simpa [modeMapOptEq] using heq
                rcases hM : (syncModes args p r em
                    (sortedUnion (keys em) (keys om)) om).abort with _ | ab'
                · rw [syncRemotes_cons_syncOk args p erm r rs orm em om
                    hm hne hq ho hM] at h ⊢
                  rcases ih _ h with ⟨a, h1, h2, h3, h4⟩
                  exact ⟨a, h1, h2, List.mem_append.2 (Or.inr h3), h4⟩
                · rw [syncRemotes_cons_syncAbort args p erm r rs orm em om ab'
                    hm hne hq ho hM] at h ⊢
                  simp only [Option.some_inj] at h
                  rcases syncModes_abort_shape args p r _ _ _ ab' hM
                    with ⟨a, h1, h2, h3, h4⟩
                  exact ⟨a, h ▸ h1, h2, h3, h4⟩

theorem syncRemotes_checked (args : Args) (p : String) (erm : RemoteMap)
    (rs : List String) (orm : RemoteMap)
    (h : (syncRemotes args p erm rs orm).abort = none) :
    ∀ a ∈ (syncRemotes args p erm rs orm).actions, isChecked a = true →
      args.exec a = true := by
  induction rs generalizing orm with
  | nil => simp [syncRemotes_nil]
  | cons r rs ih =>
      rcases hm : dget erm r with _ | em
      · rw [syncRemotes_cons_absent args p erm r rs orm hm] at h ⊢
        exact ih orm h
      · by_cases hne : em = []
        · rw [syncRemotes_cons_empty args p erm r rs orm (hne ▸ hm)] at h ⊢
          exact ih orm h
        · cases heq : modeMapOptEq em (dget orm r) with
          | true =>
              rw [syncRemotes_cons_eq args p erm r rs orm em hm hne heq] at h ⊢
              exact ih orm h
          | false =>
              rcases ho : dget orm r with _ | om
              · cases hsu : args.setUrls with
                | false =>
                    rw [syncRemotes_cons_skip args p erm r rs orm em hm hne ho hsu]
                      at h ⊢
                    exact ih orm h
                | true =>
                    rcases em with _ | ⟨⟨m0, u0⟩, em'⟩
                    · exact absurd rfl hne
                    · cases hx : args.exec (Action.remoteAdd p r u0) with
                      | false =>
                          rw [syncRemotes_cons_addFail args p erm r rs orm
                            m0 u0 em' hm ho hsu hx] at h
                          cases h
                      | true =>
                          rcases hM : (syncModes args p r ((m0, u0) :: em')
                              (sortedUnion (keys ((m0, u0) :: em'))
                                (keys [("fetch", u0), ("push", u0)]))
                              [("fetch", u0), ("push", u0)]).abort with _ | ab'
                          · rw [syncRemotes_cons_addOk args p erm r rs orm
                              m0 u0 em' hm ho hsu hx hM] at h ⊢
                            intro a ha hc
                            rcases List.mem_cons.1 ha with h' | h'
                            · rw [h']
                              exact hx
                            · rcases List.mem_append.1 h' with h'' | h''
                              · exact syncModes_checked args p r _ _ _ hM a h''
                              · exact ih _ h a h'' hc
                          · rw [syncRemotes_cons_addAbort args p erm r rs orm
                              m0 u0 em' ab' hm ho hsu hx hM] at h
                            cases h
              · have hq : modeMapEq em om = false := by
                  rw [ho] at heq
                  simpa [modeMapOptEq] using heq
                rcases hM : (syncModes args p r em
                    (sortedUnion (keys em) (keys om)) om).abort with _ | ab'
                · rw [syncRemotes_cons_syncOk args p erm r rs orm em om
                    hm hne hq ho hM] at h ⊢
                  intro a ha hc
                  rcases List.mem_append.1 ha with h' | h'
                  · exact syncModes_checked args p r _ _ _ hM a h'
                  · exact ih _ h a h' hc
                · rw [syncRemotes_cons_syncAbort args p erm r rs orm em om ab'
                    hm hne hq ho hM] at h
                  cases h

theorem syncRemotes_frame (args : Args) (p : String) (erm : RemoteMap)
    (rs : List String) (orm : RemoteMap) (r0 : String) (hr0 : r0 ∉ rs) :
    dget (syncRemotes args p erm rs orm).state r0 = dget orm r0 := by
  induction rs generalizing orm with
  | nil => simp [syncRemotes_nil]
  | cons r rs ih =>
      have hne0 : r ≠ r0 := fun he => hr0 (he ▸ List.mem_cons_self _ _)
      have hrs : r0 ∉ rs := fun he => hr0 (List.mem_cons_of_mem _ he)
      rcases hm : dget erm r with _ | em
      · rw [syncRemotes_cons_absent args p erm r rs orm hm]
        exact ih orm hrs
      · by_cases hne : em = []
        · rw [syncRemotes_cons_empty args p erm r rs orm (hne ▸ hm)]
          exact ih orm hrs
        · cases heq : modeMapOptEq em (dget orm r) with
          | true =>
              rw [syncRemotes_cons_eq args p erm r rs orm em hm hne heq]
              exact ih orm hrs
          | false =>
              rcases ho : dget orm r with _ | om
              · cases hsu : args.setUrls with
                | false =>
                    rw [syncRemotes_cons_skip args p erm r rs orm em hm hne ho hsu]
                    exact ih orm hrs
                | true =>
                    rcases em with _ | ⟨⟨m0, u0⟩, em'⟩
                    · exact absurd rfl hne
                    · cases hx : args.exec (Action.remoteAdd p r u0) with
                      | false =>
                          rw [syncRemotes_cons_addFail args p erm r rs orm
                            m0 u0 em' hm ho hsu hx]
                      | true =>
                          rcases hM : (syncModes args p r ((m0, u0) :: em')
                              (sortedUnion (keys ((m0, u0) :: em'))
                                (keys [("fetch", u0), ("push", u0)]))
                              [("fetch", u0), ("push", u0)]).abort with _ | ab'
                          · rw [syncRemotes_cons_addOk args p erm r rs orm
                              m0 u0 em' hm ho hsu hx hM]
                            rw [ih _ hrs]
                            exact dget_dset_ne orm r0 r _ hne0
                          · rw [syncRemotes_cons_addAbort args p erm r rs orm
                              m0 u0 em' ab' hm ho hsu hx hM]
                            exact dget_dset_ne orm r0 r _ hne0
              · have hq : modeMapEq em om = false := by
                  rw [ho] at heq
                  simpa [modeMapOptEq] using heq
                rcases hM : (syncModes args p r em
                    (sortedUnion (keys em) (keys om)) om).abort with _ | ab'
                · rw [syncRemotes_cons_syncOk args p erm r rs orm em om hm hne hq ho hM]
                  rw [ih _ hrs]
                  exact dget_dset_ne orm r0 r _ hne0
                · rw [syncRemotes_cons_syncAbort args p erm r rs orm em om ab'
                    hm hne hq ho hM]
                  exact dget_dset_ne orm r0 r _ hne0

theorem syncRemotes_establish (args : Args) (p : String) (erm : RemoteMap)
    (rs : List String) (orm : RemoteMap)
    (hsu : args.setUrls = true) (hnd : rs.Nodup)
    (hok : ∀ a ∈ (syncRemotes args p erm rs orm).actions, args.exec a = true) :
    (syncRemotes args p erm rs orm).abort = none ∧
      ∀ r ∈ rs, ∀ em, dget erm r = some em → em ≠ [] →
        ∃ om, dget (syncRemotes args p erm rs orm).state r = some om ∧
          modeInv em om := by
  induction rs generalizing orm with
  | nil => simp [syncRemotes_nil]
  | cons r rs ih =>
      rw [List.nodup_cons] at hnd
      rcases hm : dget erm r with _ | em
      · rw [syncRemotes_cons_absent args p erm r rs orm hm] at hok ⊢
        refine ⟨(ih orm hnd.2 hok).1, ?_⟩
        intro r' hr' em₂ hu hne₂
        rcases List.mem_cons.1 hr' with h | h
        · subst h
          rw [hm] at hu
          cases hu
        · exact (ih orm hnd.2 hok).2 r' h em₂ hu hne₂
      · by_cases hne : em = []
        · rw [syncRemotes_cons_empty args p erm r rs orm (hne ▸ hm)] at hok ⊢
          refine ⟨(ih orm hnd.2 hok).1, ?_⟩
          intro r' hr' em₂ hu hne₂
          rcases List.mem_cons.1 hr' with h | h
          · subst h
            rw [hm] at hu
            cases hu
            exact absurd hne (by simpa using hne₂)
          · exact (ih orm hnd.2 hok).2 r' h em₂ hu hne₂
        · cases heq : modeMapOptEq em (dget orm r) with
          | true =>
              rw [syncRemotes_cons_eq args p erm r rs orm em hm hne heq] at hok ⊢
              refine ⟨(ih orm hnd.2 hok).1, ?_⟩
              intro r' hr' em₂ hu hne₂
              rcases List.mem_cons.1 hr' with h | h
              · subst h
                rw [hm] at hu
                cases hu
                rcases modeMapOptEq_some _ _ heq with ⟨om, ho, hmeq⟩
                refine ⟨om, ?_, modeInv_of_modeMapEq _ _ hmeq⟩
                rw [syncRemotes_frame args p erm rs orm r' hnd.1, ho]
              · exact (ih orm hnd.2 hok).2 r' h em₂ hu hne₂
          | false =>
              rcases ho : dget orm r with _ | om
              · cases hsu' : args.setUrls with
                | false => rw [hsu'] at hsu; cases hsu
                | true =>
                    rcases em with _ | ⟨⟨m0, u0⟩, em'⟩
                    · exact absurd rfl hne
                    · cases hx : args.exec (Action.remoteAdd p r u0) with
                      | false =>
                          rw [syncRemotes_cons_addFail args p erm r rs orm
                            m0 u0 em' hm ho hsu hx] at hok
                          exact absurd (hok _ (List.mem_singleton_self _))
                            (by simp [hx])
                      | true =>
                          rcases hM : (syncModes args p r ((m0, u0) :: em')
                              (sortedUnion (keys ((m0, u0) :: em'))
                                (keys [("fetch", u0), ("push", u0)]))
                              [("fetch", u0), ("push", u0)]).abort with _ | ab'
                          · rw [syncRemotes_cons_addOk args p erm r rs orm
                              m0 u0 em' hm ho hsu hx hM] at hok ⊢
                            have hokM : ∀ a ∈ (syncModes args p r ((m0, u0) :: em')
                                (sortedUnion (keys ((m0, u0) :: em'))
                                  (keys [("fetch", u0), ("push", u0)]))
                                [("fetch", u0), ("push", u0)]).actions,
                                args.exec a = true := fun a ha => hok a
                              (List.mem_cons_of_mem _ (List.mem_append.2 (Or.inl ha)))
                            have hokR : ∀ a ∈ (syncRemotes args p erm rs
                                (dset orm r (syncModes args p r ((m0, u0) :: em')
                                  (sortedUnion (keys ((m0, u0) :: em'))
                                    (keys [("fetch", u0), ("push", u0)]))
                                  [("fetch", u0), ("push", u0)]).state)).actions,
                                args.exec a = true := fun a ha => hok a
                              (List.mem_cons_of_mem _ (List.mem_append.2 (Or.inr ha)))
                            refine ⟨(ih _ hnd.2 hokR).1, ?_⟩
                            intro r' hr' em₂ hu hne₂
                            rcases List.mem_cons.1 hr' with h | h
                            · subst h
                              rw [hm] at hu
                              cases hu
                              have hms := syncModes_establish args p r' ((m0, u0) :: em')
                                (sortedUnion (keys ((m0, u0) :: em'))
                                  (keys [("fetch", u0), ("push", u0)]))
                                [("fetch", u0), ("push", u0)] hsu
                                (nodup_sortedUnion _ _) hokM
                              have hstate : dget (syncRemotes args p erm rs
                                  (dset orm r' (syncModes args p r' ((m0, u0) :: em')
                                    (sortedUnion (keys ((m0, u0) :: em'))
                                      (keys [("fetch", u0), ("push", u0)]))
                                    [("fetch", u0), ("push", u0)]).state)).state r'
                                  = some (syncModes args p r' ((m0, u0) :: em')
                                    (sortedUnion (keys ((m0, u0) :: em'))
                                      (keys [("fetch", u0), ("push", u0)]))
                                    [("fetch", u0), ("push", u0)]).state := by
                                rw [syncRemotes_frame args p erm rs _ r' hnd.1]
                                exact dget_dset_self orm r' _
                              exact ⟨_, hstate, fun m u hmm hne₃ =>
                                hms.2 m ((mem_sortedUnion m _ _).2
                                  (Or.inl (mem_keys_of_dget _ m u hmm))) u hmm hne₃⟩
                            · exact (ih _ hnd.2 hokR).2 r' h em₂ hu hne₂
                          · rw [syncRemotes_cons_addAbort args p erm r rs orm
                              m0 u0 em' ab' hm ho hsu hx hM] at hok
                            have hokM : ∀ a ∈ (syncModes args p r ((m0, u0) :: em')
                                (sortedUnion (keys ((m0, u0) :: em'))
                                  (keys [("fetch", u0), ("push", u0)]))
                                [("fetch", u0), ("push", u0)]).actions,
                                args.exec a = true := fun a ha => hok a
                              (List.mem_cons_of_mem _ ha)
                            have := (syncModes_establish args p r ((m0, u0) :: em')
                              (sortedUnion (keys ((m0, u0) :: em'))
                                (keys [("fetch", u0), ("push", u0)]))
                              [("fetch", u0), ("push", u0)] hsu
                              (nodup_sortedUnion _ _) hokM).1
                            rw [hM] at this
                            cases this
              · have hq : modeMapEq em om = false := by
                  rw [ho] at heq
                  simpa [modeMapOptEq] using heq
                rcases hM : (syncModes args p r em
                    (sortedUnion (keys em) (keys om)) om).abort with _ | ab'
                · rw [syncRemotes_cons_syncOk args p erm r rs orm em om
                    hm hne hq ho hM] at hok ⊢
                  have hokM : ∀ a ∈ (syncModes args p r em
                      (sortedUnion (keys em) (keys om)) om).actions,
                      args.exec a = true := fun a ha => hok a
                    (List.mem_append.2 (Or.inl ha))
                  have hokR : ∀ a ∈ (syncRemotes args p erm rs
                      (dset orm r (syncModes args p r em
                        (sortedUnion (keys em) (keys om)) om).state)).actions,
                      args.exec a = true := fun a ha => hok a
                    (List.mem_append.2 (Or.inr ha))
                  refine ⟨(ih _ hnd.2 hokR).1, ?_⟩
                  intro r' hr' em₂ hu hne₂
                  rcases List.mem_cons.1 hr' with h | h
                  · subst h
                    rw [hm] at hu
                    cases hu
                    have hms := syncModes_establish args p r' em
                      (sortedUnion (keys em) (keys om)) om hsu
                      (nodup_sortedUnion _ _) hokM
                    have hstate : dget (syncRemotes args p erm rs
                        (dset orm r' (syncModes args p r' em
                          (sortedUnion (keys em) (keys om)) om).state)).state r'
                        = some (syncModes args p r' em
                          (sortedUnion (keys em) (keys om)) om).state := by
                      rw [syncRemotes_frame args p erm rs _ r' hnd.1]
                      exact dget_dset_self orm r' _
                    exact ⟨_, hstate, fun m u hmm hne₃ =>
                      hms.2 m ((mem_sortedUnion m _ _).2
                        (Or.inl (mem_keys_of_dget _ m u hmm))) u hmm hne₃⟩
                  · exact (ih _ hnd.2 hokR).2 r' h em₂ hu hne₂
                · rw [syncRemotes_cons_syncAbort args p erm r rs orm em om ab'
                    hm hne hq ho hM] at hok
                  have hokM : ∀ a ∈ (syncModes args p r em
                      (sortedUnion (keys em) (keys om)) om).actions,
                      args.exec a = true := hok
                  have := (syncModes_establish args p r em
                    (sortedUnion (keys em) (keys om)) om hsu
                    (nodup_sortedUnion _ _) hokM).1
                  rw [hM] at this
                  cases this

theorem syncRemotes_stable (args : Args) (p : String) (erm : RemoteMap)
    (rs : List String) (orm : RemoteMap) (hinv : remInv erm orm) :
    (syncRemotes args p erm rs orm).actions = [] ∧
      (syncRemotes args p erm rs orm).state = orm ∧
      (syncRemotes args p erm rs orm).abort = none := by
  induction rs with
  | nil => simp [syncRemotes_nil]
  | cons r rs ih =>
      rcases hm : dget erm r with _ | em
      · rw [syncRemotes_cons_absent args p erm r rs orm hm]
        exact ih
      · by_cases hne : em = []
        · rw [syncRemotes_cons_empty args p erm r rs orm (hne ▸ hm)]
          exact ih
        · cases heq : modeMapOptEq em (dget orm r) with
          | true =>
              rw [syncRemotes_cons_eq args p erm r rs orm em hm hne heq]
              exact ih
          | false =>
              rcases hinv r em hm hne with ⟨om, hom, hminv⟩
              have hq : modeMapEq em om = false := by
                rw [hom] at heq
                simpa [modeMapOptEq] using heq
              have hms := syncModes_stable args p r em
                (sortedUnion (keys em) (keys om)) om hminv
              rw [syncRemotes_cons_syncOk args p erm r rs orm em om
                hm hne hq hom hms.2.2]
              rw [hms.1, hms.2.1, dset_dget_id orm r om hom]
              exact ⟨by simp [ih.1], by simp [ih.2.1], by simp [ih.2.2]⟩

theorem isCorrective_of_isChecked (a : Action) (h : isChecked a = true) :
    isCorrective a = true := by
  cases a <;> first | rfl | cases h

theorem syncRemotes_actions_checked (args : Args) (p : String) (erm : RemoteMap)
    (rs : List String) (orm : RemoteMap) :
    ∀ a ∈ (syncRemotes args p erm rs orm).actions, isChecked a = true := by
  induction rs generalizing orm with
  | nil => simp [syncRemotes_nil]
  | cons r rs ih =>
      intro a ha
      rcases hm : dget erm r with _ | em
      · rw [syncRemotes_cons_absent args p erm r rs orm hm] at ha
        exact ih orm a ha
      · by_cases hne : em = []
        · rw [syncRemotes_cons_empty args p erm r rs orm (hne ▸ hm)] at ha
          exact ih orm a ha
        · cases heq : modeMapOptEq em (dget orm r) with
          | true =>
              rw [syncRemotes_cons_eq args p erm r rs orm em hm hne heq] at ha
              exact ih orm a ha
          | false =>
              rcases ho : dget orm r with _ | om
              · cases hsu : args.setUrls with
                | false =>
                    rw [syncRemotes_cons_skip args p erm r rs orm em hm hne ho hsu] at ha
                    exact ih orm a ha
                | true =>
                    rcases em with _ | ⟨⟨m0, u0⟩, em'⟩
                    · exact absurd rfl hne
                    · cases hx : args.exec (Action.remoteAdd p r u0) with
                      | false =>
                          rw [syncRemotes_cons_addFail args p erm r rs orm
                            m0 u0 em' hm ho hsu hx] at ha
                          rw [List.mem_singleton.1 ha]
                          rfl
                      | true =>
                          rcases hM : (syncModes args p r ((m0, u0) :: em')
                              (sortedUnion (keys ((m0, u0) :: em'))
                                (keys [("fetch", u0), ("push", u0)]))
                              [("fetch", u0), ("push", u0)]).abort with _ | ab
                          · rw [syncRemotes_cons_addOk args p erm r rs orm
                              m0 u0 em' hm ho hsu hx hM] at ha
                            rcases List.mem_cons.1 ha with h | h
                            · rw [h]
                              rfl
                            · rcases List.mem_append.1 h with h' | h'
                              · rcases syncModes_actions_setUrl args p r _ _ _ a h'
                                  with ⟨b, u, hb⟩
                                rw [hb]
                                rfl
                              · exact ih _ a h'
                          · rw [syncRemotes_cons_addAbort args p erm r rs orm
                              m0 u0 em' ab hm ho hsu hx hM] at ha
                            rcases List.mem_cons.1 ha with h | h
                            · rw [h]
                              rfl
                            · rcases syncModes_actions_setUrl args p r _ _ _ a h
                                with ⟨b, u, hb⟩
                              rw [hb]
                              rfl
              · have hq : modeMapEq em om = false := by
                  rw [ho] at heq
                  simpa [modeMapOptEq] using heq
                rcases hM : (syncModes args p r em
                    (sortedUnion (keys em) (keys om)) om).abort with _ | ab
                · rw [syncRemotes_cons_syncOk args p erm r rs orm em om
                    hm hne hq ho hM] at ha
                  rcases List.mem_append.1 ha with h' | h'
                  · rcases syncModes_actions_setUrl args p r _ _ _ a h' with ⟨b, u, hb⟩
                    rw [hb]
                    rfl
                  · exact ih _ a h'
                · rw [syncRemotes_cons_syncAbort args p erm r rs orm em om ab
                    hm hne hq ho hM] at ha
                  rcases syncModes_actions_setUrl args p r _ _ _ a ha with ⟨b, u, hb⟩
                  rw [hb]
                  rfl

theorem syncModes_inert (args : Args) (p r : String) (em : ModeMap)
    (ms : List String) (om : ModeMap) (hsu : args.setUrls = false) :
    (syncModes args p r em ms om).actions = [] ∧
      (syncModes args p r em ms om).state = om ∧
      (syncModes args p r em ms om).abort = none := by
  induction ms with
  | nil => simp [syncModes_nil]
  | cons m ms ih =>
      rcases hm : dget em m with _ | eu
      · rw [syncModes_cons_absent args p r em m ms om hm]
        exact ih
      · by_cases he : eu = ""
        · rw [syncModes_cons_empty args p r em m ms om (he ▸ hm)]
          exact ih
        · by_cases hq : dget om m = some eu
          · rw [syncModes_cons_match args p r em m ms om eu hm he hq]
            exact ih
          · rw [syncModes_cons_skip args p r em m ms om eu hm he hq hsu]
            exact ih

theorem syncRemotes_inert (args : Args) (p : String) (erm : RemoteMap)
    (rs : List String) (orm : RemoteMap) (hsu : args.setUrls = false) :
    (syncRemotes args p erm rs orm).actions = [] ∧
      (syncRemotes args p erm rs orm).state = orm ∧
      (syncRemotes args p erm rs orm).abort = none := by
  induction rs with
  | nil => simp [syncRemotes_nil]
  | cons r rs ih =>
      rcases hm : dget erm r with _ | em
      · rw [syncRemotes_cons_absent args p erm r rs orm hm]
        exact ih
      · by_cases hne : em = []
        · rw [syncRemotes_cons_empty args p erm r rs orm (hne ▸ hm)]
          exact ih
        · cases heq : modeMapOptEq em (dget orm r) with
          | true =>
              rw [syncRemotes_cons_eq args p erm r rs orm em hm hne heq]
              exact ih
          | false =>
              rcases ho : dget orm r with _ | om
              · rw [syncRemotes_cons_skip args p erm r rs orm em hm hne ho hsu]
                exact ih
              · have hq : modeMapEq em om = false := by
                  rw [ho] at heq
                  simpa [modeMapOptEq] using heq
                have hms := syncModes_inert args p r em
                  (sortedUnion (keys em) (keys om)) om hsu
                rw [syncRemotes_cons_syncOk args p erm r rs orm em om
                  hm hne hq ho hms.2.2]
                rw [hms.1, hms.2.1, dset_dget_id orm r om ho]
                exact ⟨by simp [ih.1], by simp [ih.2.1], by simp [ih.2.2]⟩

/-!  ## Clone-loop and post-check lemmas  -/

theorem tryClone_actions (args : Args) (p : String) (l : List (String × String)) :
    (tryClone args p l).2.1 =
      (attemptedCandidates args p l).map (fun c => Action.clone p c.1 c.2) := by
  induction l with
  | nil => rfl
  | cons c rest ih =>
      obtain ⟨r, u⟩ := c
      by_cases hx : args.exec (Action.clone p r u)
      · simp [tryClone, attemptedCandidates, hx]
      · simp [tryClone, attemptedCandidates, hx, ih]

theorem tryClone_none_all_fail (args : Args) (p : String)
    (l : List (String × String)) (h : (tryClone args p l).2.2 = none) :
    ∀ c ∈ l, args.exec (Action.clone p c.1 c.2) = false := by
  induction l with
  | nil => simp
  | cons c rest ih =>
      obtain ⟨r, u⟩ := c
      by_cases hx : args.exec (Action.clone p r u)
      · simp [tryClone, hx] at h
      · simp only [tryClone, hx, Bool.false_eq_true, if_false] at h
        intro c' hc'
        rcases List.mem_cons.1 hc' with h' | h'
        · rw [h']
          simpa using hx
        · exact ih h c' h'

theorem mem_attemptedCandidates_head (args : Args) (p : String)
    (c : String × String) (rest : List (String × String)) :
    c ∈ attemptedCandidates args p (c :: rest) := by
  obtain ⟨r, u⟩ := c
  by_cases hx : args.exec (Action.clone p r u) <;>
    simp [attemptedCandidates, hx]

theorem postChecks_actions (args : Args) (p : String) :
    (postChecks args p).2 =
      (if args.fetch then [Action.fetchAll p] else []) ++
        [Action.showRef p, Action.stashList p, Action.lsFiles p] := rfl

theorem postChecks_benign (args : Args) (p : String) :
    ∀ a ∈ (postChecks args p).2,
      isCorrective a = false ∧ isChecked a = false ∧ isClone a = false := by
  intro a ha
  rw [postChecks_actions] at ha
  cases hf : args.fetch <;> rw [hf] at ha <;> simp at ha
  · rcases ha with rfl | rfl | rfl <;> exact ⟨rfl, rfl, rfl⟩
  · rcases ha with rfl | rfl | rfl | rfl <;> exact ⟨rfl, rfl, rfl⟩

/-!  ## Project-level step equations  -/

theorem syncAndPost_ok (args : Args) (p : String) (erm orm : RemoteMap)
    (hab : (syncRemotes args p erm (sortedUnion (keys erm) (keys orm)) orm).abort
      = none) :
    syncAndPost args p erm orm =
      ⟨(syncRemotes args p erm (sortedUnion (keys erm) (keys orm)) orm).log ++
          (postChecks args p).1,
        (syncRemotes args p erm (sortedUnion (keys erm) (keys orm)) orm).actions ++
          (postChecks args p).2,
        some (.ok (syncRemotes args p erm
          (sortedUnion (keys erm) (keys orm)) orm).state),
        none⟩ := by
  rw [syncAndPost, hab]

theorem syncAndPost_abort (args : Args) (p : String) (erm orm : RemoteMap)
    (ab : Abort)
    (hab : (syncRemotes args p erm (sortedUnion (keys erm) (keys orm)) orm).abort
      = some ab) :
    syncAndPost args p erm orm =
      ⟨(syncRemotes args p erm (sortedUnion (keys erm) (keys orm)) orm).log,
        (syncRemotes args p erm (sortedUnion (keys erm) (keys orm)) orm).actions,
        some (.ok (syncRemotes args p erm
          (sortedUnion (keys erm) (keys orm)) orm).state),
        some ab⟩ := by
  rw [syncAndPost, hab]

theorem processProject_ignore (args : Args) (p : String) (e o : Option ObsVal)
    (hpat : args.pattern p = false) :
    processProject args p e o = ⟨[⟨.debug, projPfx p, "ignoring..."⟩], [], o, none⟩ := by
  rw [processProject.eq_def, if_pos hpat]

theorem processProject_queryFailed (args : Args) (p : String) (e : Option ObsVal)
    (s : String) (hpat : args.pattern p = true) :
    processProject args p e (some (.queryFailed s)) =
      ⟨[⟨.error, projPfx p, s.trim⟩], [], some (.queryFailed s), none⟩ := by
  rw [processProject, if_neg (by simp [hpat])]

theorem processProject_ok (args : Args) (p : String) (e : Option ObsVal)
    (orm : RemoteMap) (hpat : args.pattern p = true) :
    processProject args p e (some (.ok orm)) = processPresent args p e (some orm) := by
  rw [processProject, if_neg (by simp [hpat])]

theorem processProject_none (args : Args) (p : String) (e : Option ObsVal)
    (hpat : args.pattern p = true) :
    processProject args p e none = processPresent args p e none := by
  rw [processProject, if_neg (by simp [hpat])]

theorem processPresent_assert (args : Args) (p : String) (s : String)
    (obsRm : Option RemoteMap) :
    processPresent args p (some (.queryFailed s)) obsRm =
      ⟨[], [], obsRm.map .ok, some .assertionError⟩ := rfl

theorem processPresent_unexpected (args : Args) (p : String)
    (obsRm : Option RemoteMap) :
    processPresent args p none obsRm =
      ⟨⟨.warning, projPfx p, "unexpected project"⟩ :: (postChecks args p).1,
        (postChecks args p).2, obsRm.map .ok, none⟩ := rfl

theorem processPresent_equal (args : Args) (p : String) (erm : RemoteMap)
    (obsRm : Option RemoteMap) (heq : remoteMapOptEq erm obsRm = true) :
    processPresent args p (some (.ok erm)) obsRm =
      ⟨(postChecks args p).1, (postChecks args p).2, obsRm.map .ok, none⟩ := by
  rw [processPresent.eq_def]
  simp [heq]

theorem processPresent_syncExisting (args : Args) (p : String) (erm orm : RemoteMap)
    (heq : remoteMapOptEq erm (some orm) = false) :
    processPresent args p (some (.ok erm)) (some orm) =
      ⟨⟨.debug, projPfx p, "project sync needed"⟩ ::
          ⟨.debug, projPfx p, "clone exists"⟩ :: (syncAndPost args p erm orm).log,
        (syncAndPost args p erm orm).actions,
        (syncAndPost args p erm orm).state,
        (syncAndPost args p erm orm).abort⟩ := by
  rw [processPresent]
  simp [heq]

theorem processPresent_skipClone (args : Args) (p : String) (erm : RemoteMap)
    (hc : args.clone = false) :
    processPresent args p (some (.ok erm)) none =
      ⟨[⟨.debug, projPfx p, "project sync needed"⟩,
          ⟨.warning, projPfx p, "skipping (rerun with --clone)..."⟩],
        [], none, none⟩ := by
  rw [processPresent]
  simp [remoteMapOptEq, hc]

theorem processPresent_cloneNone (args : Args) (p : String) (erm : RemoteMap)
    (hc : args.clone = true)
    (hat : (tryClone args p (fetchableRemoteUrls erm)).2.2 = none) :
    processPresent args p (some (.ok erm)) none =
      ⟨⟨.debug, projPfx p, "project sync needed"⟩ ::
          ⟨.info, projPfx p, "cloning..."⟩ ::
          (tryClone args p (fetchableRemoteUrls erm)).1,
        (tryClone args p (fetchableRemoteUrls erm)).2.1, none, none⟩ := by
  rw [processPresent]
  simp [remoteMapOptEq, hc, hat]

theorem processPresent_cloneSome (args : Args) (p : String) (erm : RemoteMap)
    (r u : String) (hc : args.clone = true)
    (hat : (tryClone args p (fetchableRemoteUrls erm)).2.2 = some (r, u)) :
    processPresent args p (some (.ok erm)) none =
      ⟨⟨.debug, projPfx p, "project sync needed"⟩ ::
          ⟨.info, projPfx p, "cloning..."⟩ ::
          ((tryClone args p (fetchableRemoteUrls erm)).1 ++
            ⟨.debug, projPfx p, "clone exists"⟩ ::
            (syncAndPost args p erm [(r, [("fetch", u), ("push", u)])]).log),
        (tryClone args p (fetchableRemoteUrls erm)).2.1 ++
          (syncAndPost args p erm [(r, [("fetch", u), ("push", u)])]).actions,
        (syncAndPost args p erm [(r, [("fetch", u), ("push", u)])]).state,
        (syncAndPost args p erm [(r, [("fetch", u), ("push", u)])]).abort⟩ := by
  rw [processPresent]
  simp [remoteMapOptEq, hc, hat]

/-!  ## Project-level lemmas  -/

theorem syncAndPost_state (args : Args) (p : String) (erm orm : RemoteMap) :
    (syncAndPost args p erm orm).state =
      some (.ok (syncRemotes args p erm (sortedUnion (keys erm) (keys orm)) orm).state) := by
  rcases hab : (syncRemotes args p erm (sortedUnion (keys erm) (keys orm)) orm).abort
    with _ | ab
  · rw [syncAndPost_ok args p erm orm hab]
  · rw [syncAndPost_abort args p erm orm ab hab]

theorem syncAndPost_abort_none (args : Args) (p : String) (erm orm : RemoteMap)
    (h : (syncAndPost args p erm orm).abort = none) :
    (syncRemotes args p erm (sortedUnion (keys erm) (keys orm)) orm).abort = none := by
  rcases hab : (syncRemotes args p erm (sortedUnion (keys erm) (keys orm)) orm).abort
    with _ | ab
  · rfl
  · rw [syncAndPost_abort args p erm orm ab hab] at h
    cases h

theorem syncAndPost_abort_some (args : Args) (p : String) (erm orm : RemoteMap)
    (ab : Abort) (h : (syncAndPost args p erm orm).abort = some ab) :
    (syncRemotes args p erm (sortedUnion (keys erm) (keys orm)) orm).abort = some ab := by
  rcases hab : (syncRemotes args p erm (sortedUnion (keys erm) (keys orm)) orm).abort
    with _ | ab'
  · rw [syncAndPost_ok args p erm orm hab] at h
    cases h
  · rw [syncAndPost_abort args p erm orm ab' hab] at h
    simp only [Option.some_inj] at h
    rw [← h]

theorem tryClone_actions_clone (args : Args) (p : String)
    (l : List (String × String)) :
    ∀ a ∈ (tryClone args p l).2.1, ∃ r u, a = Action.clone p r u := by
  intro a ha
  rw [tryClone_actions] at ha
  rcases List.mem_map.1 ha with ⟨c, _, hc⟩
  exact ⟨c.1, c.2, hc.symm⟩

theorem processProject_state_none (args : Args) (p : String) (e o : Option ObsVal)
    (h : (processProject args p e o).state = none) : o = none := by
  by_cases hpat : args.pattern p = true
  · rcases o with _ | ov
    · rfl
    · rcases ov with orm | s
      · rw [processProject_ok args p e orm hpat] at h
        rcases e with _ | ev
        · rw [processPresent_unexpected] at h
          cases h
        · rcases ev with erm | s'
          · cases heq : remoteMapOptEq erm (some orm) with
            | true =>
                rw [processPresent_equal args p erm (some orm) heq] at h
                cases h
            | false =>
                rw [processPresent_syncExisting args p erm orm heq] at h
                rw [syncAndPost_state] at h
                cases h
          · rw [processPresent_assert] at h
            cases h
      · rw [processProject_queryFailed args p e s hpat] at h
        cases h
  · have hpat' : args.pattern p = false := by
      cases hp : args.pattern p
      · rfl
      · exact absurd hp hpat
    rw [processProject_ignore args p e o hpat'] at h
    exact h

theorem processProject_checked (args : Args) (p : String) (e o : Option ObsVal)
    (hab : (processProject args p e o).abort = none) :
    ∀ a ∈ (processProject args p e o).actions, isChecked a = true →
      args.exec a = true := by
  by_cases hpat : args.pattern p = true
  · have syncCase : ∀ erm orm,
        (syncAndPost args p erm orm).abort = none →
        ∀ a ∈ (syncAndPost args p erm orm).actions, isChecked a = true →
          args.exec a = true := by
      intro erm orm hab' a ha hch
      have hSR := syncAndPost_abort_none args p erm orm hab'
      rw [syncAndPost_ok args p erm orm hSR] at ha
      rcases List.mem_append.1 ha with h' | h'
      · exact syncRemotes_checked args p erm _ orm hSR a h' hch
      · exact absurd hch (by simp [(postChecks_benign args p a h').2.1])
    rcases o with _ | ov
    · rw [processProject_none args p e hpat] at hab ⊢
      rcases e with _ | ev
      · rw [processPresent_unexpected] at hab ⊢
        intro a ha hch
        exact absurd hch (by simp [(postChecks_benign args p a ha).2.1])
      · rcases ev with erm | s'
        · cases hc : args.clone with
          | false =>
              rw [processPresent_skipClone args p erm hc] at hab ⊢
              simp
          | true =>
              rcases hat : (tryClone args p (fetchableRemoteUrls erm)).2.2
                with _ | ⟨r, u⟩
              · rw [processPresent_cloneNone args p erm hc hat] at hab ⊢
                intro a ha hch
                rcases tryClone_actions_clone args p _ a ha with ⟨r', u', hru⟩
                rw [hru] at hch
                cases hch
              · rw [processPresent_cloneSome args p erm r u hc hat] at hab ⊢
                intro a ha hch
                rcases List.mem_append.1 ha with h' | h'
                · rcases tryClone_actions_clone args p _ a h' with ⟨r', u', hru⟩
                  rw [hru] at hch
                  cases hch
                · exact syncCase erm _ hab a h' hch
        · rw [processPresent_assert] at hab
          cases hab
    · rcases ov with orm | s
      · rw [processProject_ok args p e orm hpat] at hab ⊢
        rcases e with _ | ev
        · rw [processPresent_unexpected] at hab ⊢
          intro a ha hch
          exact absurd hch (by simp [(postChecks_benign args p a ha).2.1])
        · rcases ev with erm | s'
          · cases heq : remoteMapOptEq erm (some orm) with
            | true =>
                rw [processPresent_equal args p erm (some orm) heq] at hab ⊢
                intro a ha hch
                exact absurd hch (by simp [(postChecks_benign args p a ha).2.1])
            | false =>
                rw [processPresent_syncExisting args p erm orm heq] at hab ⊢
                exact syncCase erm orm hab
          · rw [processPresent_assert] at hab
            cases hab
      · rw [processProject_queryFailed args p e s hpat] at hab ⊢
        simp
  · have hpat' : args.pattern p = false := by
      cases hp : args.pattern p
      · rfl
      · exact absurd hp hpat
    rw [processProject_ignore args p e o hpat'] at hab ⊢
    simp

theorem processProject_abort_cases (args : Args) (p : String) (e o : Option ObsVal)
    (ab : Abort) (hab : (processProject args p e o).abort = some ab) :
    ab = Abort.assertionError ∨
      ∃ a, ab = Abort.calledProcessError a ∧ args.exec a = false ∧
        a ∈ (processProject args p e o).actions ∧ isChecked a = true := by
  by_cases hpat : args.pattern p = true
  · have syncCase : ∀ erm orm,
        (syncAndPost args p erm orm).abort = some ab →
        ∃ a, ab = Abort.calledProcessError a ∧ args.exec a = false ∧
          a ∈ (syncAndPost args p erm orm).actions ∧ isChecked a = true := by
      intro erm orm hab'
      have hSR := syncAndPost_abort_some args p erm orm ab hab'
      rcases syncRemotes_abort_shape args p erm _ orm ab hSR with ⟨a, h1, h2, h3, h4⟩
      rw [syncAndPost_abort args p erm orm ab hSR]
      exact ⟨a, h1, h2, h3, h4⟩
    rcases o with _ | ov
    · rw [processProject_none args p e hpat] at hab ⊢
      rcases e with _ | ev
      · rw [processPresent_unexpected] at hab
        cases hab
      · rcases ev with erm | s'
        · cases hc : args.clone with
          | false =>
              rw [processPresent_skipClone args p erm hc] at hab
              cases hab
          | true =>
              rcases hat : (tryClone args p (fetchableRemoteUrls erm)).2.2
                with _ | ⟨r, u⟩
              · rw [processPresent_cloneNone args p erm hc hat] at hab
                cases hab
              · rw [processPresent_cloneSome args p erm r u hc hat] at hab ⊢
                rcases syncCase erm _ hab with ⟨a, h1, h2, h3, h4⟩
                exact Or.inr ⟨a, h1, h2, List.mem_append.2 (Or.inr h3), h4⟩
        · exact Or.inl (by
            rw [processPresent_assert] at hab
            simpa using hab.symm)
    · rcases ov with orm | s
      · rw [processProject_ok args p e orm hpat] at hab ⊢
        rcases e with _ | ev
        · rw [processPresent_unexpected] at hab
          cases hab
        · rcases ev with erm | s'
          · cases heq : remoteMapOptEq erm (some orm) with
            | true =>
                rw [processPresent_equal args p erm (some orm) heq] at hab
                cases hab
            | false =>
                rw [processPresent_syncExisting args p erm orm heq] at hab ⊢
                exact Or.inr (syncCase erm orm hab)
          · exact Or.inl (by
              rw [processPresent_assert] at hab
              simpa using hab.symm)
      · rw [processProject_queryFailed args p e s hpat] at hab
        cases hab
  · have hpat' : args.pattern p = false := by
      cases hp : args.pattern p
      · rfl
      · exact absurd hp hpat
    rw [processProject_ignore args p e o hpat'] at hab
    cases hab

theorem processProject_no_assert (args : Args) (p : String) (e o : Option ObsVal)
    (he : ∀ s, e = some (.queryFailed s) → o = some (.queryFailed s)) :
    (processProject args p e o).abort ≠ some Abort.assertionError := by
  intro hab
  rcases processProject_abort_cases args p e o _ hab with h | ⟨a, h1, _, _, _⟩
  · by_cases hpat : args.pattern p = true
    · rcases o with _ | ov
      · rw [processProject_none args p e hpat] at hab
        rcases e with _ | ev
        · rw [processPresent_unexpected] at hab
          cases hab
        · rcases ev with erm | s'
          · cases hc : args.clone with
            | false =>
                rw [processPresent_skipClone args p erm hc] at hab
                cases hab
            | true =>
                rcases hat : (tryClone args p (fetchableRemoteUrls erm)).2.2
                  with _ | ⟨r, u⟩
                · rw [processPresent_cloneNone args p erm hc hat] at hab
                  cases hab
                · rw [processPresent_cloneSome args p erm r u hc hat] at hab
                  have hSR := syncAndPost_abort_some args p erm _ _ hab
                  rcases syncRemotes_abort_shape args p erm _ _ _ hSR
                    with ⟨a, h1, _, _, _⟩
                  cases h1
          · exact absurd (he s' rfl) (by simp)
      · rcases ov with orm | s
        · rw [processProject_ok args p e orm hpat] at hab
          rcases e with _ | ev
          · rw [processPresent_unexpected] at hab
            cases hab
          · rcases ev with erm | s'
            · cases heq : remoteMapOptEq erm (some orm) with
              | true =>
                  rw [processPresent_equal args p erm (some orm) heq] at hab
                  cases hab
              | false =>
                  rw [processPresent_syncExisting args p erm orm heq] at hab
                  have hSR := syncAndPost_abort_some args p erm _ _ hab
                  rcases syncRemotes_abort_shape args p erm _ _ _ hSR
                    with ⟨a, h1, _, _, _⟩
                  cases h1
            · exact absurd (he s' rfl) (by simp)
        · rw [processProject_queryFailed args p e s hpat] at hab
          cases hab
    · have hpat' : args.pattern p = false := by
        cases hp : args.pattern p
        · rfl
        · exact absurd hp hpat
      rw [processProject_ignore args p e o hpat'] at hab
      cases hab
  · cases h1

theorem postChecks_filter (args : Args) (p : String) :
    (postChecks args p).2.filter isCorrective = [] := by
  rw [List.filter_eq_nil]
  intro a ha
  simp [(postChecks_benign args p a ha).1]

theorem stable_sync (args : Args) (p : String) (erm orm : RemoteMap)
    (hpat : args.pattern p = true)
    (hcase : args.setUrls = false ∨ remInv erm orm) :
    stableEntry args p (some (.ok erm)) (some (.ok orm)) := by
  have hSR : (syncRemotes args p erm (sortedUnion (keys erm) (keys orm)) orm).actions
        = [] ∧
      (syncRemotes args p erm (sortedUnion (keys erm) (keys orm)) orm).state = orm ∧
      (syncRemotes args p erm (sortedUnion (keys erm) (keys orm)) orm).abort = none := by
    rcases hcase with hsu | hinv
    · exact syncRemotes_inert args p erm _ orm hsu
    · exact syncRemotes_stable args p erm _ orm hinv
  unfold stableEntry
  rw [processProject_ok args p _ orm hpat]
  cases heq : remoteMapOptEq erm (some orm) with
  | true =>
      rw [processPresent_equal args p erm (some orm) heq]
      exact ⟨postChecks_filter args p, rfl, rfl⟩
  | false =>
      rw [processPresent_syncExisting args p erm orm heq]
      rw [syncAndPost_ok args p erm orm hSR.2.2]
      refine ⟨?_, ?_, rfl⟩
      · rw [List.filter_append, hSR.1, postChecks_filter args p]
        rfl
      · rw [hSR.2.1]

theorem stable_ignore (args : Args) (p : String) (e o : Option ObsVal)
    (hpat : args.pattern p = false) : stableEntry args p e o := by
  unfold stableEntry
  rw [processProject_ignore args p e o hpat]
  exact ⟨rfl, rfl, rfl⟩

theorem stable_queryFailed (args : Args) (p : String) (e : Option ObsVal) (s : String)
    (hpat : args.pattern p = true) :
    stableEntry args p e (some (.queryFailed s)) := by
  unfold stableEntry
  rw [processProject_queryFailed args p e s hpat]
  exact ⟨rfl, rfl, rfl⟩

theorem stable_unexpected_none (args : Args) (p : String)
    (hpat : args.pattern p = true) : stableEntry args p none none := by
  unfold stableEntry
  rw [processProject_none args p none hpat, processPresent_unexpected]
  exact ⟨postChecks_filter args p, rfl, rfl⟩

theorem stable_unexpected_ok (args : Args) (p : String) (orm : RemoteMap)
    (hpat : args.pattern p = true) :
    stableEntry args p none (some (.ok orm)) := by
  unfold stableEntry
  rw [processProject_ok args p none orm hpat, processPresent_unexpected]
  exact ⟨postChecks_filter args p, rfl, rfl⟩

theorem stable_skipClone (args : Args) (p : String) (erm : RemoteMap)
    (hpat : args.pattern p = true) (hc : args.clone = false) :
    stableEntry args p (some (.ok erm)) none := by
  unfold stableEntry
  rw [processProject_none args p _ hpat, processPresent_skipClone args p erm hc]
  exact ⟨rfl, rfl, rfl⟩

theorem stable_noCandidates (args : Args) (p : String) (erm : RemoteMap)
    (hpat : args.pattern p = true) (hc : args.clone = true)
    (hl : fetchableRemoteUrls erm = []) :
    stableEntry args p (some (.ok erm)) none := by
  have hat : (tryClone args p (fetchableRemoteUrls erm)).2.2 = none := by
    rw [hl]
    rfl
  unfold stableEntry
  rw [processProject_none args p _ hpat, processPresent_cloneNone args p erm hc hat, hl]
  exact ⟨rfl, rfl, rfl⟩

theorem processProject_establish (args : Args) (p : String) (e o : Option ObsVal)
    (hok : ∀ a ∈ (processProject args p e o).actions,
      isCorrective a = true → args.exec a = true)
    (hab : (processProject args p e o).abort = none) :
    stableEntry args p e ((processProject args p e o).state) := by
  by_cases hpat : args.pattern p = true
  · rcases o with _ | ov
    · rcases e with _ | ev
      · have hst : (processProject args p none none).state = none := by
          rw [processProject_none args p none hpat, processPresent_unexpected]
          rfl
        rw [hst]
        exact stable_unexpected_none args p hpat
      · rcases ev with erm | s'
        · cases hc : args.clone with
          | false =>
              have hst : (processProject args p (some (.ok erm)) none).state = none := by
                rw [processProject_none args p _ hpat,
                  processPresent_skipClone args p erm hc]
              rw [hst]
              exact stable_skipClone args p erm hpat hc
          | true =>
              rcases hat : (tryClone args p (fetchableRemoteUrls erm)).2.2
                with _ | ⟨r, u⟩
              · rcases hl : fetchableRemoteUrls erm with _ | ⟨c, rest⟩
                · have hst : (processProject args p (some (.ok erm)) none).state
                      = none := by
                    rw [processProject_none args p _ hpat,
                      processPresent_cloneNone args p erm hc hat]
                  rw [hst]
                  exact stable_noCandidates args p erm hpat hc hl
                · exfalso
                  have hmem : Action.clone p c.1 c.2 ∈
                      (processProject args p (some (.ok erm)) none).actions := by
                    rw [processProject_none args p _ hpat,
                      processPresent_cloneNone args p erm hc hat, tryClone_actions, hl]
                    exact List.mem_map_of_mem _
                      (mem_attemptedCandidates_head args p c rest)
                  have hxt := hok _ hmem rfl
                  have hfail := tryClone_none_all_fail args p _ hat c
                    (by rw [hl]; exact List.mem_cons_self _ _)
                  rw [hxt] at hfail
                  cases hfail
              · rw [processProject_none args p _ hpat,
                  processPresent_cloneSome args p erm r u hc hat] at hok hab
                have hSRab := syncAndPost_abort_none args p erm
                  [(r, [("fetch", u), ("push", u)])] hab
                have hst : (processProject args p (some (.ok erm)) none).state
                    = some (.ok (syncRemotes args p erm
                      (sortedUnion (keys erm)
                        (keys [(r, [("fetch", u), ("push", u)])]))
                      [(r, [("fetch", u), ("push", u)])]).state) := by
                  rw [processProject_none args p _ hpat,
                    processPresent_cloneSome args p erm r u hc hat]
                  exact syncAndPost_state args p erm [(r, [("fetch", u), ("push", u)])]
                rw [hst]
                cases hsu : args.setUrls with
                | false => exact stable_sync args p erm _ hpat (Or.inl hsu)
                | true =>
                    have hokSR : ∀ a ∈ (syncRemotes args p erm
                        (sortedUnion (keys erm)
                          (keys [(r, [("fetch", u), ("push", u)])]))
                        [(r, [("fetch", u), ("push", u)])]).actions,
                        args.exec a = true := by
                      intro a ha
                      have hch := syncRemotes_actions_checked args p erm _ _ a ha
                      refine hok a ?_ (isCorrective_of_isChecked a hch)
                      refine List.mem_append.2 (Or.inr ?_)
                      rw [syncAndPost_ok args p erm _ hSRab]
                      exact List.mem_append.2 (Or.inl ha)
                    have hest := syncRemotes_establish args p erm
                      (sortedUnion (keys erm)
                        (keys [(r, [("fetch", u), ("push", u)])]))
                      [(r, [("fetch", u), ("push", u)])] hsu
                      (nodup_sortedUnion _ _) hokSR
                    refine stable_sync args p erm _ hpat (Or.inr ?_)
                    intro r' em hr' hne
                    exact hest.2 r' ((mem_sortedUnion r' _ _).2
                      (Or.inl (mem_keys_of_dget erm r' em hr'))) em hr' hne
        · rw [processProject_none args p _ hpat, processPresent_assert] at hab
          cases hab
    · rcases ov with orm | s
      · rcases e with _ | ev
        · have hst : (processProject args p none (some (.ok orm))).state
              = some (.ok orm) := by
            rw [processProject_ok args p none orm hpat, processPresent_unexpected]
            rfl
          rw [hst]
          exact stable_unexpected_ok args p orm hpat
        · rcases ev with erm | s'
          · cases heq : remoteMapOptEq erm (some orm) with
            | true =>
                have hst : (processProject args p (some (.ok erm))
                    (some (.ok orm))).state = some (.ok orm) := by
                  rw [processProject_ok args p _ orm hpat,
                    processPresent_equal args p erm (some orm) heq]
                  rfl
                rw [hst]
                have hinv : remInv erm orm := by
                  intro r' em hr' hne
                  have hopt := modeMapOptEq_some em (dget orm r') ?_
                  · rcases hopt with ⟨om, ho, hmeq⟩
                    exact ⟨om, ho, modeInv_of_modeMapEq em om hmeq⟩
                  · unfold remoteMapOptEq at heq
                    unfold remoteMapEq at heq
                    rw [Bool.and_eq_true, List.all_eq_true] at heq
                    have := heq.1 r' (mem_keys_of_dget erm r' em hr')
                    rw [hr'] at this
                    rcases hoo : dget orm r' with _ | om
                    · rw [hoo] at this
                      simp [optModeMapEq] at this
                    · rw [hoo] at this
                      simpa [optModeMapEq] using this
                exact stable_sync args p erm orm hpat (Or.inr hinv)
            | false =>
                rw [processProject_ok args p _ orm hpat,
                  processPresent_syncExisting args p erm orm heq] at hok hab
                have hSRab := syncAndPost_abort_none args p erm orm hab
                have hst : (processProject args p (some (.ok erm))
                    (some (.ok orm))).state
                    = some (.ok (syncRemotes args p erm
                      (sortedUnion (keys erm) (keys orm)) orm).state) := by
                  rw [processProject_ok args p _ orm hpat,
                    processPresent_syncExisting args p erm orm heq]
                  exact syncAndPost_state args p erm orm
                rw [hst]
                cases hsu : args.setUrls with
                | false => exact stable_sync args p erm _ hpat (Or.inl hsu)
                | true =>
                    have hokSR : ∀ a ∈ (syncRemotes args p erm
                        (sortedUnion (keys erm) (keys orm)) orm).actions,
                        args.exec a = true := by
                      intro a ha
                      have hch := syncRemotes_actions_checked args p erm _ _ a ha
                      refine hok a ?_ (isCorrective_of_isChecked a hch)
                      rw [syncAndPost_ok args p erm orm hSRab]
                      exact List.mem_append.2 (Or.inl ha)
                    have hest := syncRemotes_establish args p erm
                      (sortedUnion (keys erm) (keys orm)) orm hsu
                      (nodup_sortedUnion _ _) hokSR
                    refine stable_sync args p erm _ hpat (Or.inr ?_)
                    intro r' em hr' hne
                    exact hest.2 r' ((mem_sortedUnion r' _ _).2
                      (Or.inl (mem_keys_of_dget erm r' em hr'))) em hr' hne
          · rw [processProject_ok args p _ orm hpat, processPresent_assert] at hab
            cases hab
      · have hst : (processProject args p e (some (.queryFailed s))).state
            = some (.queryFailed s) := by
          rw [processProject_queryFailed args p e s hpat]
        rw [hst]
        exact stable_queryFailed args p e s hpat
  · have hpat' : args.pattern p = false := by
      cases hp : args.pattern p
      · rfl
      · exact absurd hp hpat
    have hst : (processProject args p e o).state = o := by
      rw [processProject_ignore args p e o hpat']
    rw [hst]
    exact stable_ignore args p e o hpat'

/-!  ## Run-level lemmas  -/

theorem runFrom_nil (args : Args) (E : Topology) (obs : Topology) :
    runFrom args E [] obs = ⟨[], [], obs, none⟩ := rfl

theorem runFrom_cons_ok (args : Args) (E : Topology) (p : String)
    (ps : List String) (obs : Topology)
    (hab : (processProject args p (dget E p) (dget obs p)).abort = none) :
    runFrom args E (p :: ps) obs =
      ⟨(processProject args p (dget E p) (dget obs p)).log ++
          (runFrom args E ps
            (updEntry obs p (processProject args p (dget E p) (dget obs p)).state)).log,
        (processProject args p (dget E p) (dget obs p)).actions ++
          (runFrom args E ps
            (updEntry obs p
              (processProject args p (dget E p) (dget obs p)).state)).actions,
        (runFrom args E ps
          (updEntry obs p (processProject args p (dget E p) (dget obs p)).state)).state,
        (runFrom args E ps
          (updEntry obs p
            (processProject args p (dget E p) (dget obs p)).state)).abort⟩ := by
  rw [runFrom]
  simp [hab]

theorem runFrom_cons_abort (args : Args) (E : Topology) (p : String)
    (ps : List String) (obs : Topology) (ab : Abort)
    (hab : (processProject args p (dget E p) (dget obs p)).abort = some ab) :
    runFrom args E (p :: ps) obs =
      ⟨(processProject args p (dget E p) (dget obs p)).log,
        (processProject args p (dget E p) (dget obs p)).actions,
        updEntry obs p (processProject args p (dget E p) (dget obs p)).state,
        some ab⟩ := by
  rw [runFrom]
  simp [hab]

theorem dget_updEntry_ne (obs : Topology) (p p0 : String) (st : Option ObsVal)
    (h : p ≠ p0) : dget (updEntry obs p st) p0 = dget obs p0 := by
  cases st with
  | none => rfl
  | some v => exact dget_dset_ne obs p0 p v h

theorem updEntry_self (obs : Topology) (p : String) :
    updEntry obs p (dget obs p) = obs := by
  rcases ho : dget obs p with _ | v
  · rfl
  · exact dset_dget_id obs p v ho

theorem runFrom_frame (args : Args) (E : Topology) (ps : List String)
    (obs : Topology) (p0 : String) (hp0 : p0 ∉ ps) :
    dget (runFrom args E ps obs).state p0 = dget obs p0 := by
  induction ps generalizing obs with
  | nil => simp [runFrom_nil]
  | cons p ps ih =>
      have hne : p ≠ p0 := fun he => hp0 (he ▸ List.mem_cons_self _ _)
      have hps : p0 ∉ ps := fun he => hp0 (List.mem_cons_of_mem _ he)
      rcases hab : (processProject args p (dget E p) (dget obs p)).abort with _ | ab
      · rw [runFrom_cons_ok args E p ps obs hab]
        rw [ih _ hps]
        exact dget_updEntry_ne obs p p0 _ hne
      · rw [runFrom_cons_abort args E p ps obs ab hab]
        exact dget_updEntry_ne obs p p0 _ hne

theorem mem_keys_runFrom (args : Args) (E : Topology) (ps : List String)
    (obs : Topology) (p0 : String)
    (h : p0 ∈ keys (runFrom args E ps obs).state) :
    p0 ∈ keys obs ∨ p0 ∈ ps := by
  induction ps generalizing obs with
  | nil =>
      rw [runFrom_nil] at h
      exact Or.inl h
  | cons p ps ih =>
      have hupd : ∀ st, p0 ∈ keys (updEntry obs p st) →
          p0 ∈ keys obs ∨ p0 ∈ p :: ps := by
        intro st hm
        cases st with
        | none => exact Or.inl hm
        | some v =>
            rcases mem_keys_dset obs p p0 v hm with h' | h'
            · exact Or.inr (h' ▸ List.mem_cons_self _ _)
            · exact Or.inl h'
      rcases hab : (processProject args p (dget E p) (dget obs p)).abort with _ | ab
      · rw [runFrom_cons_ok args E p ps obs hab] at h
        rcases ih _ h with h' | h'
        · exact hupd _ h'
        · exact Or.inr (List.mem_cons_of_mem _ h')
      · rw [runFrom_cons_abort args E p ps obs ab hab] at h
        exact hupd _ h

theorem processProject_state_qf (args : Args) (p : String) (e : Option ObsVal)
    (s : String) :
    (processProject args p e (some (.queryFailed s))).state
      = some (.queryFailed s) := by
  by_cases hpat : args.pattern p = true
  · rw [processProject_queryFailed args p e s hpat]
  · have hpat' : args.pattern p = false := by
      cases hp : args.pattern p
      · rfl
      · exact absurd hp hpat
    rw [processProject_ignore args p e _ hpat']

theorem runFrom_no_assert (args : Args) (E : Topology) (ps : List String)
    (obs : Topology)
    (hEO : ∀ p s, dget E p = some (.queryFailed s) → dget obs p = some (.queryFailed s)) :
    (runFrom args E ps obs).abort ≠ some Abort.assertionError := by
  induction ps generalizing obs with
  | nil => simp [runFrom_nil]
  | cons p ps ih =>
      have hP := processProject_no_assert args p (dget E p) (dget obs p) (hEO p)
      have hEO' : ∀ p' s, dget E p' = some (.queryFailed s) →
          dget (updEntry obs p (processProject args p (dget E p) (dget obs p)).state) p'
            = some (.queryFailed s) := by
        intro p' s hp'
        by_cases hpp : p = p'
        · subst hpp
          have hqf := hEO p s hp'
          rw [hqf, processProject_state_qf args p (dget E p) s]
          exact dget_dset_self obs p _
        · rw [dget_updEntry_ne obs p p' _ hpp]
          exact hEO p' s hp'
      rcases hab : (processProject args p (dget E p) (dget obs p)).abort with _ | ab
      · rw [runFrom_cons_ok args E p ps obs hab]
        exact ih _ hEO'
      · rw [runFrom_cons_abort args E p ps obs ab hab]
        intro hcon
        simp only [Option.some_inj] at hcon
        rw [hcon] at hab
        exact hP hab

theorem runFrom_checked (args : Args) (E : Topology) (ps : List String)
    (obs : Topology) (hab : (runFrom args E ps obs).abort = none) :
    ∀ a ∈ (runFrom args E ps obs).actions, isChecked a = true →
      args.exec a = true := by
  induction ps generalizing obs with
  | nil => simp [runFrom_nil]
  | cons p ps ih =>
      rcases habP : (processProject args p (dget E p) (dget obs p)).abort with _ | ab
      · rw [runFrom_cons_ok args E p ps obs habP] at hab ⊢
        intro a ha hc
        rcases List.mem_append.1 ha with h' | h'
        · exact processProject_checked args p _ _ habP a h' hc
        · exact ih _ hab a h' hc
      · rw [runFrom_cons_abort args E p ps obs ab habP] at hab
        cases hab

theorem runFrom_abort_cases (args : Args) (E : Topology) (ps : List String)
    (obs : Topology) (ab : Abort)
    (hab : (runFrom args E ps obs).abort = some ab) :
    ab = Abort.assertionError ∨
      ∃ a, ab = Abort.calledProcessError a ∧ args.exec a = false ∧
        a ∈ (runFrom args E ps obs).actions ∧ isChecked a = true := by
  induction ps generalizing obs with
  | nil => simp [runFrom_nil] at hab
  | cons p ps ih =>
      rcases habP : (processProject args p (dget E p) (dget obs p)).abort with _ | ab'
      · rw [runFrom_cons_ok args E p ps obs habP] at hab ⊢
        rcases ih _ hab with h | ⟨a, h1, h2, h3, h4⟩
        · exact Or.inl h
        · exact Or.inr ⟨a, h1, h2, List.mem_append.2 (Or.inr h3), h4⟩
      · rw [runFrom_cons_abort args E p ps obs ab' habP] at hab ⊢
        simp only [Option.some_inj] at hab
        subst hab
        rcases processProject_abort_cases args p _ _ ab' habP with h | ⟨a, h1, h2, h3, h4⟩
        · exact Or.inl h
        · exact Or.inr ⟨a, h1, h2, h3, h4⟩

theorem runFrom_establish (args : Args) (E : Topology) (ps : List String)
    (obs : Topology) (hnd : ps.Nodup)
    (hok : ∀ a ∈ (runFrom args E ps obs).actions,
      isCorrective a = true → args.exec a = true)
    (hab : (runFrom args E ps obs).abort = none) :
    ∀ p ∈ ps, stableEntry args p (dget E p) (dget (runFrom args E ps obs).state p) := by
  induction ps generalizing obs with
  | nil => simp
  | cons p ps ih =>
      rw [List.nodup_cons] at hnd
      rcases habP : (processProject args p (dget E p) (dget obs p)).abort with _ | ab
      · rw [runFrom_cons_ok args E p ps obs habP] at hok hab ⊢
        have hokP : ∀ a ∈ (processProject args p (dget E p) (dget obs p)).actions,
            isCorrective a = true → args.exec a = true :=
          fun a ha => hok a (List.mem_append.2 (Or.inl ha))
        have hokR : ∀ a ∈ (runFrom args E ps
            (updEntry obs p (processProject args p (dget E p) (dget obs p)).state)).actions,
            isCorrective a = true → args.exec a = true :=
          fun a ha => hok a (List.mem_append.2 (Or.inr ha))
        intro p' hp'
        rcases List.mem_cons.1 hp' with h | h
        · subst h
          have hdg : dget (runFrom args E ps
              (updEntry obs p'
                (processProject args p' (dget E p') (dget obs p')).state)).state p'
              = (processProject args p' (dget E p') (dget obs p')).state := by
            rw [runFrom_frame args E ps _ p' hnd.1]
            cases hst : (processProject args p' (dget E p') (dget obs p')).state with
            | some v => exact dget_dset_self obs p' v
            | none =>
                have := processProject_state_none args p' (dget E p') (dget obs p') hst
                rw [updEntry]
                exact this
          rw [hdg]
          exact processProject_establish args p' (dget E p') (dget obs p') hokP habP
        · exact ih _ hnd.2 hokR hab p' h
      · rw [runFrom_cons_abort args E p ps obs ab habP] at hab
        cases hab

theorem runFrom_stable (args : Args) (E : Topology) (ps : List String)
    (obs : Topology)
    (hstab : ∀ p ∈ ps, stableEntry args p (dget E p) (dget obs p)) :
    (runFrom args E ps obs).actions.filter isCorrective = [] ∧
      (runFrom args E ps obs).state = obs ∧
      (runFrom args E ps obs).abort = none := by
  induction ps generalizing obs with
  | nil => simp [runFrom_nil]
  | cons p ps ih =>
      have hP := hstab p (List.mem_cons_self _ _)
      unfold stableEntry at hP
      rcases hP with ⟨hPf, hPs, hPa⟩
      have hobs' : updEntry obs p (processProject args p (dget E p) (dget obs p)).state
          = obs := by
        rw [hPs]
        exact updEntry_self obs p
      rw [runFrom_cons_ok args E p ps obs hPa, hobs']
      have hstab' : ∀ p' ∈ ps, stableEntry args p' (dget E p') (dget obs p') :=
        fun p' hp' => hstab p' (List.mem_cons_of_mem _ hp')
      refine ⟨?_, (ih _ hstab').2.1, (ih _ hstab').2.2⟩
      rw [List.filter_append, hPf, (ih _ hstab').1]
      rfl

/-!  ## Expected-topology and export lemmas  -/

theorem toExp_no_qf (e : List (String × RemoteMap)) (p s : String) :
    dget (toExp e) p ≠ some (.queryFailed s) := by
  induction e with
  | nil => simp [toExp, dget]
  | cons hd tl ih =>
      obtain ⟨q, rmu⟩ := hd
      by_cases hq : q = p
      · simp [toExp, dget_cons, hq]
      · simpa [toExp, dget_cons, hq] using ih

theorem run_def (args : Args) (E O : Topology) :
    run args E O = runFrom args E (sortedUnion (keys E) (keys O)) O := rfl

theorem insertSortedPair_perm {β : Type} (x : String × β) (l : List (String × β)) :
    List.Perm (insertSortedPair x l) (x :: l) := by
  induction l with
  | nil => rfl
  | cons y ys ih =>
      by_cases h : strLe x.1 y.1
      · simp [insertSortedPair, h]
      · rw [insertSortedPair, if_neg (by simp [h])]
        exact (ih.cons y).trans (List.Perm.swap x y ys)

theorem sortPairs_perm {β : Type} (l : List (String × β)) :
    List.Perm (sortPairs l) l := by
  induction l with
  | nil => rfl
  | cons x xs ih =>
      exact (insertSortedPair_perm x (sortPairs xs)).trans (ih.cons x)

theorem dget_of_perm {β : Type} (l l' : List (String × β)) (k : String)
    (hperm : List.Perm l l') (hnd : (keys l).Nodup) : dget l k = dget l' k := by
  have hkeys : List.Perm (keys l) (keys l') := hperm.map Prod.fst
  have hnd' : (keys l').Nodup := hkeys.nodup_iff.1 hnd
  rcases hv : dget l k with _ | v
  · have hk : k ∉ keys l := by
      intro hmem
      rcases List.mem_map.1 hmem with ⟨⟨k0, v0⟩, hm, he⟩
      have : dget l k = some v0 := by
        cases he
        exact dget_of_mem_nodup l _ v0 hm hnd
      rw [hv] at this
      cases this
    have hk' : k ∉ keys l' := fun hm => hk (hkeys.mem_iff.2 hm)
    exact (dget_eq_none_of_not_mem l' k hk').symm
  · have hm := mem_of_dget_some l k v hv
    exact (dget_of_mem_nodup l' k v (hperm.mem_iff.1 hm) hnd').symm

theorem dget_sortPairs {β : Type} (l : List (String × β)) (k : String)
    (hnd : (keys l).Nodup) : dget (sortPairs l) k = dget l k := by
  have hperm := sortPairs_perm l
  have hnd' : (keys (sortPairs l)).Nodup :=
    ((hperm.map Prod.fst).nodup_iff).2 hnd
  exact dget_of_perm (sortPairs l) l k hperm hnd'

theorem keys_exportSnapshot_sublist (E : Topology) :
    List.Sublist (keys (exportSnapshot E)) (keys E) := by
  induction E with
  | nil => exact List.Sublist.refl _
  | cons hd tl ih =>
      obtain ⟨q, v⟩ := hd
      rcases v with rmu | s
      · exact List.Sublist.cons₂ q ih
      · exact List.Sublist.cons q ih

theorem dget_exportSnapshot (E : Topology) (p : String)
    (hnd : (keys E).Nodup) :
    dget (exportSnapshot E) p =
      (match dget E p with
        | some (.ok rmu) => some rmu
        | _ => none) := by
  induction E with
  | nil => rfl
  | cons hd tl ih =>
      obtain ⟨q, v⟩ := hd
      rw [keys_cons, List.nodup_cons] at hnd
      rcases v with rmu | s
      · by_cases hq : q = p
        · simp [exportSnapshot, dget_cons, hq]
        · simpa [exportSnapshot, dget_cons, hq] using ih hnd.2
      · by_cases hq : q = p
        · subst hq
          rw [dget_cons, if_pos rfl]
          have hnotin : q ∉ keys (exportSnapshot tl) :=
            fun hm => hnd.1 ((keys_exportSnapshot_sublist tl).mem hm)
          simp [exportSnapshot]
          exact dget_eq_none_of_not_mem _ q hnotin
        · simpa [exportSnapshot, dget_cons, hq] using ih hnd.2

/-!  ## Clone-action helpers  -/

theorem filter_isClone_tryClone (args : Args) (p : String)
    (l : List (String × String)) :
    (tryClone args p l).2.1.filter isClone = (tryClone args p l).2.1 := by
  rw [List.filter_eq_self]
  intro a ha
  rcases tryClone_actions_clone args p l a ha with ⟨r, u, hru⟩
  simp [hru, isClone]

theorem filter_isClone_syncAndPost (args : Args) (p : String)
    (erm orm : RemoteMap) :
    (syncAndPost args p erm orm).actions.filter isClone = [] := by
  have hpost : ∀ a ∈ (postChecks args p).2, ¬(isClone a = true) := by
    intro a ha
    simp [(postChecks_benign args p a ha).2.2]
  rcases hab : (syncRemotes args p erm (sortedUnion (keys erm) (keys orm)) orm).abort
    with _ | ab
  · rw [syncAndPost_ok args p erm orm hab, List.filter_append]
    rw [List.filter_eq_nil.2 (fun a ha => by
      simp [syncRemotes_no_clone args p erm _ orm a ha])]
    rw [List.filter_eq_nil.2 hpost]
    rfl
  · rw [syncAndPost_abort args p erm orm ab hab]
    exact List.filter_eq_nil.2 (fun a ha => by
      simp [syncRemotes_no_clone args p erm _ orm a ha])

/-- The clone actions a run issues for a project that must be created:
exactly the fetchable expected remotes in dict order, truncated at the
first success. -/
theorem processProject_cloneActions (args : Args) (p : String) (erm : RemoteMap)
    (hc : args.clone = true) (hpat : args.pattern p = true) :
    (processProject args p (some (.ok erm)) none).actions.filter isClone =
      (attemptedCandidates args p (fetchableRemoteUrls erm)).map
        (fun c => Action.clone p c.1 c.2) := by
  rw [processProject_none args p _ hpat]
  rcases hat : (tryClone args p (fetchableRemoteUrls erm)).2.2 with _ | ⟨r, u⟩
  · rw [processPresent_cloneNone args p erm hc hat]
    rw [← tryClone_actions]
    exact filter_isClone_tryClone args p _
  · rw [processPresent_cloneSome args p erm r u hc hat]
    rw [List.filter_append, filter_isClone_tryClone args p _,
      filter_isClone_syncAndPost args p erm _, List.append_nil]
    exact tryClone_actions args p _

/-!  ## Claim theorems  -/

/-- C1 counterexample: with `--set-urls` granted, a failing
`git remote add` (`check=True`) is NOT logged and is NOT confined to
that action: the uncaught `CalledProcessError` aborts the whole run, so
the sibling project `b` (which would at least get its informational
post-checks and an unexpected-project warning) is never processed.  The
run result shows no error- or warning-level log entry at all and a
propagated abort. -/
theorem C1_counterexample :
    run ⟨true, false, true, allPat, addFailExec⟩
        (toExp [("a", [("r", [("fetch", "u")])])])
        [("a", .ok []), ("b", .ok [])] =
      ⟨[⟨.debug, "[a]", "project sync needed"⟩, ⟨.debug, "[a]", "clone exists"⟩,
          ⟨.debug, "[a] [r]", "remote sync needed"⟩, ⟨.info, "[a] [r]", "adding..."⟩],
        [Action.remoteAdd "a" "r" "u"],
        [("a", .ok []), ("b", .ok [])],
        some (.calledProcessError (Action.remoteAdd "a" "r" "u"))⟩ ∧
    (∀ msg ∈ (run ⟨true, false, true, allPat, addFailExec⟩
        (toExp [("a", [("r", [("fetch", "u")])])])
        [("a", .ok []), ("b", .ok [])]).log,
      msg.level ≠ Level.error ∧ msg.level ≠ Level.warning) ∧
    (run ⟨true, false, true, allPat, addFailExec⟩
        (toExp [("a", [("r", [("fetch", "u")])])])
        [("a", .ok []), ("b", .ok [])]).abort ≠ none := by
  refine ⟨by decide, by decide, by decide⟩

/-- C1 (amended): a failure of an add-remote or set-remote-URL action is
not caught: it aborts the entire run (its `CalledProcessError`
propagates past remote, mode, and project scope).  Equivalently, as
proved here, a run that completed (no uncaught exception) contains no
failed `check=True` action in its trace; clone and fetch failures by
contrast are logged and confined (see the clone-loop and post-check
definitions). -/
theorem C1_checked_failure_aborts (args : Args) (E O : Topology)
    (h : (run args E O).abort = none) :
    ∀ a ∈ (run args E O).actions, isChecked a = true → args.exec a = true := by
  rw [run_def] at h ⊢
  exact runFrom_checked args E _ O h

theorem C1_checked_failure_aborts_witness :
    (run ⟨true, true, true, allPat, allOkExec⟩
        (toExp [("q", [("r", [("fetch", "u")])])]) []).abort = none ∧
    (∀ a ∈ (run ⟨true, true, true, allPat, allOkExec⟩
        (toExp [("q", [("r", [("fetch", "u")])])]) []).actions,
      isChecked a = true →
        (⟨true, true, true, allPat, allOkExec⟩ : Args).exec a = true) :=
  ⟨by decide, C1_checked_failure_aborts _ _ _ (by decide)⟩

/-- C2 counterexample: a project (`b`) that is absent from the loaded
expected topology but present in the final observed topology with a
successful query is NOT written to the exported snapshot: the export
dumps the expected mapping only and never falls back to observed. -/
theorem C2_counterexample :
    dget (run ⟨false, false, false, allPat, allOkExec⟩
        (toExp [("a", [("r", [("fetch", "u")])])])
        [("b", .ok [("s", [("fetch", "v")])])]).state "b"
      = some (.ok [("s", [("fetch", "v")])]) ∧
    dget (toExp [("a", [("r", [("fetch", "u")])])]) "b" = none ∧
    specCreate false false (toExp [("a", [("r", [("fetch", "u")])])])
      = some [("a", [("r", [("fetch", "u")])])] ∧
    dget ([("a", [("r", [("fetch", "u")])])] : List (String × RemoteMap)) "b" = none := by
  refine ⟨by decide, by decide, rfl, by decide⟩

/-- C2 (amended): the written snapshot is exactly the expected mapping
with query-failure entries removed (such entries exist only when no
specification was loaded and expected is the initial observed topology);
no merge with the observed topology takes place.  The write fails
precisely when the destination exists and overwrite was not requested. -/
theorem C2_export_snapshot (overwrite destExists : Bool) (E : Topology)
    (hnd : (keys E).Nodup) :
    (specCreate overwrite destExists E = none ↔
      destExists = true ∧ overwrite = false) ∧
    (∀ doc, specCreate overwrite destExists E = some doc →
      ∀ p, dget doc p =
        (match dget E p with
          | some (.ok rmu) => some rmu
          | _ => none)) := by
  constructor
  · unfold specCreate
    cases destExists <;> cases overwrite <;> simp
  · intro doc hdoc p
    unfold specCreate at hdoc
    by_cases hcond : (destExists && !overwrite) = true
    · rw [if_pos hcond] at hdoc
      cases hdoc
    · rw [if_neg hcond] at hdoc
      have hdd := Option.some_inj.1 hdoc
      rw [← hdd]
      have hndE : (keys (exportSnapshot E)).Nodup :=
        List.Nodup.sublist (keys_exportSnapshot_sublist E) hnd
      rw [dget_sortPairs (exportSnapshot E) p hndE]
      exact dget_exportSnapshot E p hnd

theorem C2_export_snapshot_witness :
    ((keys ([("a", ObsVal.ok [("r", [("fetch", "u")])]),
        ("b", ObsVal.queryFailed "boom")] : Topology)).Nodup) ∧
    ((specCreate false false [("a", ObsVal.ok [("r", [("fetch", "u")])]),
        ("b", ObsVal.queryFailed "boom")] = none ↔
      (false : Bool) = true ∧ (false : Bool) = false) ∧
    (∀ doc, specCreate false false [("a", ObsVal.ok [("r", [("fetch", "u")])]),
        ("b", ObsVal.queryFailed "boom")] = some doc →
      ∀ p, dget doc p =
        (match dget ([("a", ObsVal.ok [("r", [("fetch", "u")])]),
            ("b", ObsVal.queryFailed "boom")] : Topology) p with
          | some (.ok rmu) => some rmu
          | _ => none))) :=
  ⟨by decide, C2_export_snapshot false false _ (by decide)⟩

/-- C3 counterexample: the expected `RemoteMap` lists remote `b` before
remote `a` (dict insertion order); with every clone failing, the
attempted candidates are `b` then `a`, although both are fetchable and
the lexicographic remote-name order (as `sortStr` computes it) would be
`a` then `b`.  The clone loop iterates the expected dict in insertion
order, not sorted order. -/
theorem C3_counterexample :
    ((run ⟨true, false, true, allPat, cloneFailExec⟩
        (toExp [("p", [("b", [("fetch", "u2")]), ("a", [("fetch", "u1")])])])
        []).actions.filter isClone)
      = [Action.clone "p" "b" "u2", Action.clone "p" "a" "u1"] ∧
    ((run ⟨true, false, true, allPat, cloneFailExec⟩
        (toExp [("p", [("b", [("fetch", "u2")]), ("a", [("fetch", "u1")])])])
        []).actions.filter isClone)
      ≠ [Action.clone "p" "a" "u1", Action.clone "p" "b" "u2"] ∧
    sortStr ["b", "a"] = ["a", "b"] := by
  refine ⟨by decide, by decide, by decide⟩

/-- C3 (amended): for a project that must be created, the clone
candidates attempted are exactly the expected remotes with a truthy
Fetch URL, visited in the order they appear in the expected `RemoteMap`
(dict insertion order), truncated at the first successful clone. -/
theorem C3_clone_candidate_order (args : Args) (p : String) (erm : RemoteMap)
    (hc : args.clone = true) (hpat : args.pattern p = true) :
    (processProject args p (some (.ok erm)) none).actions.filter isClone =
      (attemptedCandidates args p (fetchableRemoteUrls erm)).map
        (fun c => Action.clone p c.1 c.2) :=
  processProject_cloneActions args p erm hc hpat

theorem C3_clone_candidate_order_witness :
    ((⟨true, false, false, allPat, allOkExec⟩ : Args).clone = true) ∧
    ((⟨true, false, false, allPat, allOkExec⟩ : Args).pattern "p" = true) ∧
    ((processProject ⟨true, false, false, allPat, allOkExec⟩ "p"
        (some (.ok [("r", [("fetch", "u")])])) none).actions.filter isClone =
      (attemptedCandidates ⟨true, false, false, allPat, allOkExec⟩ "p"
        (fetchableRemoteUrls [("r", [("fetch", "u")])])).map
        (fun c => Action.clone "p" c.1 c.2)) :=
  ⟨rfl, rfl, C3_clone_candidate_order ⟨true, false, false, allPat, allOkExec⟩
    "p" [("r", [("fetch", "u")])] rfl rfl⟩

/-- C4: reconciliation is idempotent.  If every corrective action
(clone, add-remote, set-url) issued by a first run over expected
topology `spec` succeeds, then a second run with the same flags over the
resulting observed topology issues zero corrective actions. -/
theorem C4_idempotence (args : Args) (spec : List (String × RemoteMap))
    (O : Topology)
    (hok : ∀ a ∈ (run args (toExp spec) O).actions,
      isCorrective a = true → args.exec a = true) :
    ((run args (toExp spec)
      ((run args (toExp spec) O).state)).actions.filter isCorrective) = [] := by
  have hab1 : (run args (toExp spec) O).abort = none := by
    rcases habs : (run args (toExp spec) O).abort with _ | ab
    · rfl
    · exfalso
      rw [run_def] at habs
      rcases runFrom_abort_cases args (toExp spec) _ O ab habs
        with h | ⟨a, h1, h2, h3, h4⟩
      · exact runFrom_no_assert args (toExp spec) _ O
          (fun p s hp => absurd hp (toExp_no_qf spec p s)) (h ▸ habs)
      · rw [run_def] at hok
        have hxa := hok a h3 (isCorrective_of_isChecked a h4)
        rw [hxa] at h2
        cases h2
  rw [run_def] at hok hab1
  have hstab := runFrom_establish args (toExp spec) _ O
    (nodup_sortedUnion _ _) hok hab1
  simp only [run_def]
  refine (runFrom_stable args (toExp spec) _ _ ?_).1
  intro p hp
  have hpU1 : p ∈ sortedUnion (keys (toExp spec)) (keys O) := by
    rcases (mem_sortedUnion p _ _).1 hp with h | h
    · exact (mem_sortedUnion p _ _).2 (Or.inl h)
    · rcases mem_keys_runFrom args (toExp spec) _ O p h with h' | h'
      · exact (mem_sortedUnion p _ _).2 (Or.inr h')
      · exact h'
  exact hstab p hpU1

theorem C4_idempotence_witness :
    (∀ a ∈ (run ⟨true, false, true, allPat, allOkExec⟩
        (toExp [("p", [("a", [("fetch", "u1")]),
          ("b", [("fetch", "u2"), ("push", "v")])])])
        [("p", .ok [("b", [("fetch", "u2"), ("push", "z")])])]).actions,
      isCorrective a = true →
        (⟨true, false, true, allPat, allOkExec⟩ : Args).exec a = true) ∧
    ((run ⟨true, false, true, allPat, allOkExec⟩
        (toExp [("p", [("a", [("fetch", "u1")]),
          ("b", [("fetch", "u2"), ("push", "v")])])])
        ((run ⟨true, false, true, allPat, allOkExec⟩
          (toExp [("p", [("a", [("fetch", "u1")]),
            ("b", [("fetch", "u2"), ("push", "v")])])])
          [("p", .ok [("b", [("fetch", "u2"), ("push", "z")])])]).state)).actions.filter
        isCorrective) = [] :=
  ⟨by decide, C4_idempotence _ _ _ (by decide)⟩

/-- C5 counterexample: clone capability granted, the single expected
remote has only a Push URL (no fetch URL), the project is absent
locally: the run logs an ERROR ("unable to clone from expected
remotes"), not a warning — no warning-level message is emitted at all —
and the project stays absent.  The claim's "skipped with a warning" is
wrong for this subcase. -/
theorem C5_counterexample :
    run ⟨true, false, false, allPat, allOkExec⟩
        (toExp [("p", [("r", [("push", "u")])])]) [] =
      ⟨[⟨.debug, "[p]", "project sync needed"⟩, ⟨.info, "[p]", "cloning..."⟩,
          ⟨.error, "[p]", "unable to clone from expected remotes"⟩],
        [], [], none⟩ ∧
    (∀ msg ∈ (run ⟨true, false, false, allPat, allOkExec⟩
        (toExp [("p", [("r", [("push", "u")])])]) []).log,
      msg.level ≠ Level.warning) := by
  refine ⟨by decide, by decide⟩

/-- C5 (amended): for a project present in expected but absent in
observed, a clone is attempted iff the clone capability is granted and
at least one expected remote has a truthy Fetch URL.  Otherwise the
project stays absent: when clone is not granted it is skipped with a
warning; when clone is granted but no expected remote has a fetch URL
the clone loop runs dry and an error is logged. -/
theorem C5_missing_project (args : Args) (p : String) (erm : RemoteMap)
    (hpat : args.pattern p = true) :
    ((processProject args p (some (.ok erm)) none).actions.filter isClone ≠ [] ↔
      args.clone = true ∧ fetchableRemoteUrls erm ≠ []) ∧
    (args.clone = false →
      processProject args p (some (.ok erm)) none =
        ⟨[⟨.debug, projPfx p, "project sync needed"⟩,
            ⟨.warning, projPfx p, "skipping (rerun with --clone)..."⟩],
          [], none, none⟩) ∧
    (args.clone = true → fetchableRemoteUrls erm = [] →
      processProject args p (some (.ok erm)) none =
        ⟨[⟨.debug, projPfx p, "project sync needed"⟩,
            ⟨.info, projPfx p, "cloning..."⟩,
            ⟨.error, projPfx p, "unable to clone from expected remotes"⟩],
          [], none, none⟩) := by
  refine ⟨⟨?_, ?_⟩, ?_, ?_⟩
  · intro hne
    cases hc : args.clone with
    | false =>
        exfalso
        apply hne
        rw [processProject_none args p _ hpat, processPresent_skipClone args p erm hc]
        rfl
    | true =>
        refine ⟨rfl, ?_⟩
        intro hl
        apply hne
        rw [processProject_cloneActions args p erm hc hpat, hl]
        rfl
  · rintro ⟨hc, hl⟩
    rw [processProject_cloneActions args p erm hc hpat]
    rcases hfetch : fetchableRemoteUrls erm with _ | ⟨c, rest⟩
    · exact absurd hfetch hl
    · obtain ⟨cr, cu⟩ := c
      by_cases hx : args.exec (Action.clone p cr cu) <;>
        simp [attemptedCandidates, hx]
  · intro hc
    rw [processProject_none args p _ hpat, processPresent_skipClone args p erm hc]
  · intro hc hl
    have hat : (tryClone args p (fetchableRemoteUrls erm)).2.2 = none := by
      rw [hl]
      rfl
    rw [processProject_none args p _ hpat,
      processPresent_cloneNone args p erm hc hat, hl]
    rfl

theorem C5_missing_project_witness :
    ((⟨false, false, false, allPat, allOkExec⟩ : Args).pattern "p" = true) ∧
    (((processProject ⟨false, false, false, allPat, allOkExec⟩ "p"
        (some (.ok [("r", [("fetch", "u")])])) none).actions.filter isClone ≠ [] ↔
      (⟨false, false, false, allPat, allOkExec⟩ : Args).clone = true ∧
        fetchableRemoteUrls [("r", [("fetch", "u")])] ≠ []) ∧
    ((⟨false, false, false, allPat, allOkExec⟩ : Args).clone = false →
      processProject ⟨false, false, false, allPat, allOkExec⟩ "p"
          (some (.ok [("r", [("fetch", "u")])])) none =
        ⟨[⟨.debug, projPfx "p", "project sync needed"⟩,
            ⟨.warning, projPfx "p", "skipping (rerun with --clone)..."⟩],
          [], none, none⟩) ∧
    ((⟨false, false, false, allPat, allOkExec⟩ : Args).clone = true →
      fetchableRemoteUrls [("r", [("fetch", "u")])] = [] →
      processProject ⟨false, false, false, allPat, allOkExec⟩ "p"
          (some (.ok [("r", [("fetch", "u")])])) none =
        ⟨[⟨.debug, projPfx "p", "project sync needed"⟩,
            ⟨.info, projPfx "p", "cloning..."⟩,
            ⟨.error, projPfx "p", "unable to clone from expected remotes"⟩],
          [], none, none⟩)) :=
  ⟨rfl, C5_missing_project ⟨false, false, false, allPat, allOkExec⟩
    "p" [("r", [("fetch", "u")])] rfl⟩

/-- C6: clone fallback scenario.  Expected `{a: {fetch: u1}, b: {fetch:
u2}}` for an absent project, clone from `a` fails and clone from `b`
succeeds: the clone loop returns `b`, binding observed to
`{b: {fetch: u2, push: u2}}`; remote-scope reconciliation then adds `a`
(set-urls granted) binding both modes to `u1`, and the final observed
state holds both remotes as the claim states.  The action trace shows
the two clone attempts in order, the single add-remote, and the
informational post-checks; the run completes without abort. -/
theorem C6_clone_fallback :
    (tryClone ⟨true, false, true, allPat, cloneAFailExec⟩ "p"
      (fetchableRemoteUrls [("a", [("fetch", "u1")]), ("b", [("fetch", "u2")])])).2.2
      = some ("b", "u2") ∧
    run ⟨true, false, true, allPat, cloneAFailExec⟩
        (toExp [("p", [("a", [("fetch", "u1")]), ("b", [("fetch", "u2")])])]) [] =
      ⟨(run ⟨true, false, true, allPat, cloneAFailExec⟩
          (toExp [("p", [("a", [("fetch", "u1")]), ("b", [("fetch", "u2")])])]) []).log,
        [Action.clone "p" "a" "u1", Action.clone "p" "b" "u2",
          Action.remoteAdd "p" "a" "u1",
          Action.showRef "p", Action.stashList "p", Action.lsFiles "p"],
        [("p", .ok [("b", [("fetch", "u2"), ("push", "u2")]),
          ("a", [("fetch", "u1"), ("push", "u1")])])],
        none⟩ := by
  refine ⟨by decide, by decide⟩

/-- C7: mode correction.  With expected `{fetch: X, push: Y}` and
observed `{fetch: X, push: Z}` (`Z ≠ Y`, `Y` truthy) for remote `r` and
the set-urls capability granted (the set-url call succeeding), the run
issues exactly one corrective action — the push-specific
`git remote set-url --push` writing `Y` — and the final observed
`ModeMap` is `{fetch: X, push: Y}`: the already-matching fetch URL is
untouched and gets no set-url action. -/
theorem C7_mode_correction (args : Args) (p r X Y Z : String)
    (hpat : args.pattern p = true) (hsu : args.setUrls = true)
    (hY : Y ≠ "") (hZY : Z ≠ Y)
    (hex : args.exec (Action.setUrl p r true Y) = true) :
    (processProject args p (some (.ok [(r, [("fetch", X), ("push", Y)])]))
        (some (.ok [(r, [("fetch", X), ("push", Z)])]))).actions.filter isCorrective
      = [Action.setUrl p r true Y] ∧
    (processProject args p (some (.ok [(r, [("fetch", X), ("push", Y)])]))
        (some (.ok [(r, [("fetch", X), ("push", Z)])]))).state
      = some (.ok [(r, [("fetch", X), ("push", Y)])]) ∧
    (processProject args p (some (.ok [(r, [("fetch", X), ("push", Y)])]))
        (some (.ok [(r, [("fetch", X), ("push", Z)])]))).abort = none := by
  set em : ModeMap := [("fetch", X), ("push", Y)] with hem
  set om : ModeMap := [("fetch", X), ("push", Z)] with hom
  have hgetEmPush : dget em "push" = some Y := by
    rw [hem, dget_cons, if_neg (by decide), dget_cons, if_pos rfl]
  have hgetOmPush : dget om "push" = some Z := by
    rw [hom, dget_cons, if_neg (by decide), dget_cons, if_pos rfl]
  have hgetEmFetch : dget em "fetch" = some X := by
    rw [hem, dget_cons, if_pos rfl]
  have hgetOmFetch : dget om "fetch" = some X := by
    rw [hom, dget_cons, if_pos rfl]
  have hmm : modeMapEq em om = false := by
    cases hb : modeMapEq em om with
    | false => rfl
    | true =>
        have hthis := modeMapEq_dget em om hb "push" Y hgetEmPush
        rw [hgetOmPush] at hthis
        exact absurd (Option.some_inj.1 hthis) hZY
  have heq : remoteMapOptEq [(r, em)] (some [(r, om)]) = false := by
    unfold remoteMapOptEq remoteMapEq
    rw [Bool.and_eq_false_iff]
    left
    rw [List.all_eq_false]
    refine ⟨r, by simp [keys], ?_⟩
    rw [dget_cons, if_pos rfl, dget_cons, if_pos rfl]
    simp [optModeMapEq, hmm]
  have hgetErmR : dget [(r, em)] r = some em := by rw [dget_cons, if_pos rfl]
  have hgetOrmR : dget [(r, om)] r = some om := by rw [dget_cons, if_pos rfl]
  have hkeys : sortedUnion (keys [(r, em)]) (keys [(r, om)]) = [r] := by
    simp [keys, sortedUnion, List.dedup, sortStr, insertSorted]
  have hmodesKeys : sortedUnion (keys em) (keys om) = ["fetch", "push"] := by
    rw [hem, hom]
    show sortedUnion ["fetch", "push"] ["fetch", "push"] = ["fetch", "push"]
    decide
  have hdsetOm : dset om "push" Y = [("fetch", X), ("push", Y)] := by
    rw [hom, dset_cons, if_neg (by decide), dset_cons, if_pos rfl]
  have hqne : dget om "push" ≠ some Y := by
    rw [hgetOmPush]
    intro hcon
    exact hZY (Option.some_inj.1 hcon)
  have hdec : (decide ("push" = "push")) = true := by decide
  have hpush : syncModes args p r em ["push"] om =
      ⟨[⟨.debug, modePfx p r "push", "mode sync needed"⟩,
          ⟨.info, modePfx p r "push", "changing..."⟩],
        [Action.setUrl p r true Y], [("fetch", X), ("push", Y)], none⟩ := by
    rw [syncModes_cons_set args p r em "push" [] om Y hgetEmPush hY hqne hsu
      (by rw [hdec]; exact hex)]
    rw [syncModes_nil, hdec, hdsetOm]
  have hMactions : (syncModes args p r em ["fetch", "push"] om).actions
      = [Action.setUrl p r true Y] := by
    by_cases hX : X = ""
    · rw [syncModes_cons_empty args p r em "fetch" ["push"] om (hX ▸ hgetEmFetch)]
      rw [hpush]
    · rw [syncModes_cons_match args p r em "fetch" ["push"] om X hgetEmFetch hX
        (by rw [hgetOmFetch])]
      rw [hpush]
  have hMstate : (syncModes args p r em ["fetch", "push"] om).state
      = [("fetch", X), ("push", Y)] := by
    by_cases hX : X = ""
    · rw [syncModes_cons_empty args p r em "fetch" ["push"] om (hX ▸ hgetEmFetch)]
      rw [hpush]
    · rw [syncModes_cons_match args p r em "fetch" ["push"] om X hgetEmFetch hX
        (by rw [hgetOmFetch])]
      rw [hpush]
  have hMabort : (syncModes args p r em ["fetch", "push"] om).abort = none := by
    by_cases hX : X = ""
    · rw [syncModes_cons_empty args p r em "fetch" ["push"] om (hX ▸ hgetEmFetch)]
      rw [hpush]
    · rw [syncModes_cons_match args p r em "fetch" ["push"] om X hgetEmFetch hX
        (by rw [hgetOmFetch])]
      rw [hpush]
  have hSR := syncRemotes_cons_syncOk args p [(r, em)] r [] [(r, om)] em om
    hgetErmR (by rw [hem]; simp) hmm hgetOrmR (by rw [hmodesKeys]; exact hMabort)
  rw [hmodesKeys] at hSR
  have hdsetOrm : dset [(r, om)] r (syncModes args p r em ["fetch", "push"] om).state
      = [(r, [("fetch", X), ("push", Y)])] := by
    rw [hMstate, dset_cons, if_pos rfl]
  have hSRactions : (syncRemotes args p [(r, em)]
      (sortedUnion (keys [(r, em)]) (keys [(r, om)])) [(r, om)]).actions
      = [Action.setUrl p r true Y] := by
    rw [hkeys, hSR, hdsetOrm, syncRemotes_nil, hMactions]
    rfl
  have hSRstate : (syncRemotes args p [(r, em)]
      (sortedUnion (keys [(r, em)]) (keys [(r, om)])) [(r, om)]).state
      = [(r, [("fetch", X), ("push", Y)])] := by
    rw [hkeys, hSR, hdsetOrm, syncRemotes_nil]
  have hSRabort : (syncRemotes args p [(r, em)]
      (sortedUnion (keys [(r, em)]) (keys [(r, om)])) [(r, om)]).abort = none := by
    rw [hkeys, hSR, hdsetOrm, syncRemotes_nil]
  rw [processProject_ok args p _ _ hpat, processPresent_syncExisting args p _ _ heq,
    syncAndPost_ok args p _ _ hSRabort, hSRactions, hSRstate]
  refine ⟨?_, rfl, rfl⟩
  rw [List.filter_append, postChecks_filter args p, List.append_nil]
  rfl

theorem C7_mode_correction_witness :
    ((⟨false, false, true, allPat, allOkExec⟩ : Args).pattern "p" = true) ∧
    ((⟨false, false, true, allPat, allOkExec⟩ : Args).setUrls = true) ∧
    ("y" : String) ≠ "" ∧ ("z" : String) ≠ "y" ∧
    ((⟨false, false, true, allPat, allOkExec⟩ : Args).exec
      (Action.setUrl "p" "origin" true "y") = true) ∧
    ((processProject ⟨false, false, true, allPat, allOkExec⟩ "p"
        (some (.ok [("origin", [("fetch", "x"), ("push", "y")])]))
        (some (.ok [("origin", [("fetch", "x"), ("push", "z")])]))).actions.filter
          isCorrective
      = [Action.setUrl "p" "origin" true "y"] ∧
    (processProject ⟨false, false, true, allPat, allOkExec⟩ "p"
        (some (.ok [("origin", [("fetch", "x"), ("push", "y")])]))
        (some (.ok [("origin", [("fetch", "x"), ("push", "z")])]))).state
      = some (.ok [("origin", [("fetch", "x"), ("push", "y")])]) ∧
    (processProject ⟨false, false, true, allPat, allOkExec⟩ "p"
        (some (.ok [("origin", [("fetch", "x"), ("push", "y")])]))
        (some (.ok [("origin", [("fetch", "x"), ("push", "z")])]))).abort = none) :=
  ⟨rfl, rfl, by decide, by decide, rfl,
    C7_mode_correction ⟨false, false, true, allPat, allOkExec⟩
      "p" "origin" "x" "y" "z" rfl rfl (by decide) (by decide) rfl⟩

/-- C8: a project whose observed state is a failed query is reported
with an error carrying the project prefix and the stripped stderr, then
abandoned — no actions and no informational post-checks — and the
per-project loop continues with the remaining projects unchanged: the
rest of the run is exactly the run over the remaining project list, and
no abort is raised. -/
theorem C8_query_failure_isolated (args : Args) (E O : Topology)
    (ps : List String) (p s : String)
    (hpat : args.pattern p = true) (hobs : dget O p = some (.queryFailed s)) :
    processProject args p (dget E p) (dget O p) =
      ⟨[⟨.error, projPfx p, s.trim⟩], [], some (.queryFailed s), none⟩ ∧
    runFrom args E (p :: ps) O =
      ⟨⟨.error, projPfx p, s.trim⟩ :: (runFrom args E ps O).log,
        (runFrom args E ps O).actions,
        (runFrom args E ps O).state,
        (runFrom args E ps O).abort⟩ := by
  have hP : processProject args p (dget E p) (dget O p) =
      ⟨[⟨.error, projPfx p, s.trim⟩], [], some (.queryFailed s), none⟩ := by
    rw [hobs, processProject_queryFailed args p (dget E p) s hpat]
  refine ⟨hP, ?_⟩
  have hupd : updEntry O p (processProject args p (dget E p) (dget O p)).state
      = O := by
    rw [hP]
    exact dset_dget_id O p _ hobs
  rw [runFrom_cons_ok args E p ps O (by rw [hP])]
  rw [hupd, hP]
  rfl

theorem C8_query_failure_isolated_witness :
    ((⟨true, true, true, allPat, allOkExec⟩ : Args).pattern "p" = true) ∧
    (dget ([("p", ObsVal.queryFailed " boom ")] : Topology) "p"
      = some (.queryFailed " boom ")) ∧
    (processProject ⟨true, true, true, allPat, allOkExec⟩ "p"
        (dget ([] : Topology) "p")
        (dget ([("p", ObsVal.queryFailed " boom ")] : Topology) "p") =
      ⟨[⟨.error, projPfx "p", (" boom " : String).trim⟩], [],
        some (.queryFailed " boom "), none⟩ ∧
    runFrom ⟨true, true, true, allPat, allOkExec⟩ ([] : Topology) ["p"]
        [("p", ObsVal.queryFailed " boom ")] =
      ⟨⟨.error, projPfx "p", (" boom " : String).trim⟩ ::
          (runFrom ⟨true, true, true, allPat, allOkExec⟩ ([] : Topology) []
            [("p", ObsVal.queryFailed " boom ")]).log,
        (runFrom ⟨true, true, true, allPat, allOkExec⟩ ([] : Topology) []
          [("p", ObsVal.queryFailed " boom ")]).actions,
        (runFrom ⟨true, true, true, allPat, allOkExec⟩ ([] : Topology) []
          [("p", ObsVal.queryFailed " boom ")]).state,
        (runFrom ⟨true, true, true, allPat, allOkExec⟩ ([] : Topology) []
          [("p", ObsVal.queryFailed " boom ")]).abort⟩) :=
  ⟨rfl, by decide, C8_query_failure_isolated ⟨true, true, true, allPat, allOkExec⟩
    [] [("p", ObsVal.queryFailed " boom ")] [] "p" " boom " rfl (by decide)⟩

/-- C9: the assertion that the expected value is never a query failure
holds on every run: when the expected topology comes from a loaded
specification it contains only `Ok` values, and when expected is defined
as equal to observed the query-failure branch abandons the project
before the assertion is reached.  In both cases no `AssertionError`
abort can occur. -/
theorem C9_expected_not_query_failed :
    (∀ (args : Args) (spec : List (String × RemoteMap)) (O : Topology),
      (run args (toExp spec) O).abort ≠ some Abort.assertionError) ∧
    (∀ (args : Args) (O : Topology),
      (run args O O).abort ≠ some Abort.assertionError) := by
  constructor
  · intro args spec O
    rw [run_def]
    exact runFrom_no_assert args (toExp spec) _ O
      (fun p s hp => absurd hp (toExp_no_qf spec p s))
  · intro args O
    rw [run_def]
    exact runFrom_no_assert args O _ O (fun p s hp => hp)

theorem C9_expected_not_query_failed_witness :
    (run ⟨true, true, true, allPat, allOkExec⟩
      (toExp [("p", [("r", [("fetch", "u")])])])
      [("q", .queryFailed "boom")]).abort ≠ some Abort.assertionError :=
  C9_expected_not_query_failed.1 ⟨true, true, true, allPat, allOkExec⟩
    [("p", [("r", [("fetch", "u")])])] [("q", .queryFailed "boom")]

/-- C10: at remote scope an expected remote bound to an empty `ModeMap`,
and at mode scope an expected mode bound to an empty URL, are handled by
exactly the same branch as an absent entry: the loop step emits only the
"unexpected remote"/"unexpected mode" warning and performs no add-remote
or set-url action, leaving the observed state untouched, as the
identical right-hand sides for the absent and empty cases show. -/
theorem C10_empty_as_absent (args : Args) (p r m : String) (erm : RemoteMap)
    (em : ModeMap) (rs ms : List String) (orm : RemoteMap) (om : ModeMap)
    (hr : dget erm r = none ∨ dget erm r = some [])
    (hm : dget em m = none ∨ dget em m = some "") :
    syncRemotes args p erm (r :: rs) orm =
      ⟨⟨.warning, remPfx p r, "unexpected remote"⟩ ::
          (syncRemotes args p erm rs orm).log,
        (syncRemotes args p erm rs orm).actions,
        (syncRemotes args p erm rs orm).state,
        (syncRemotes args p erm rs orm).abort⟩ ∧
    syncModes args p r em (m :: ms) om =
      ⟨⟨.warning, modePfx p r m, "unexpected mode"⟩ ::
          (syncModes args p r em ms om).log,
        (syncModes args p r em ms om).actions,
        (syncModes args p r em ms om).state,
        (syncModes args p r em ms om).abort⟩ := by
  constructor
  · rcases hr with h | h
    · exact syncRemotes_cons_absent args p erm r rs orm h
    · exact syncRemotes_cons_empty args p erm r rs orm h
  · rcases hm with h | h
    · exact syncModes_cons_absent args p r em m ms om h
    · exact syncModes_cons_empty args p r em m ms om h

theorem C10_empty_as_absent_witness :
    (dget ([("a", ([] : ModeMap))] : RemoteMap) "a" = none ∨
      dget ([("a", ([] : ModeMap))] : RemoteMap) "a" = some []) ∧
    (dget ([("fetch", "")] : ModeMap) "fetch" = none ∨
      dget ([("fetch", "")] : ModeMap) "fetch" = some "") ∧
    (syncRemotes ⟨true, true, true, allPat, allOkExec⟩ "p"
        [("a", ([] : ModeMap))] ["a"] [("a", [("fetch", "x")])] =
      ⟨⟨.warning, remPfx "p" "a", "unexpected remote"⟩ ::
          (syncRemotes ⟨true, true, true, allPat, allOkExec⟩ "p"
            [("a", ([] : ModeMap))] [] [("a", [("fetch", "x")])]).log,
        (syncRemotes ⟨true, true, true, allPat, allOkExec⟩ "p"
          [("a", ([] : ModeMap))] [] [("a", [("fetch", "x")])]).actions,
        (syncRemotes ⟨true, true, true, allPat, allOkExec⟩ "p"
          [("a", ([] : ModeMap))] [] [("a", [("fetch", "x")])]).state,
        (syncRemotes ⟨true, true, true, allPat, allOkExec⟩ "p"
          [("a", ([] : ModeMap))] [] [("a", [("fetch", "x")])]).abort⟩ ∧
    syncModes ⟨true, true, true, allPat, allOkExec⟩ "p" "a"
        [("fetch", "")] ["fetch"] [("fetch", "x")] =
      ⟨⟨.warning, modePfx "p" "a" "fetch", "unexpected mode"⟩ ::
          (syncModes ⟨true, true, true, allPat, allOkExec⟩ "p" "a"
            [("fetch", "")] [] [("fetch", "x")]).log,
        (syncModes ⟨true, true, true, allPat, allOkExec⟩ "p" "a"
          [("fetch", "")] [] [("fetch", "x")]).actions,
        (syncModes ⟨true, true, true, allPat, allOkExec⟩ "p" "a"
          [("fetch", "")] [] [("fetch", "x")]).state,
        (syncModes ⟨true, true, true, allPat, allOkExec⟩ "p" "a"
          [("fetch", "")] [] [("fetch", "x")]).abort⟩) :=
  ⟨Or.inr (by decide), Or.inr (by decide),
    C10_empty_as_absent ⟨true, true, true, allPat, allOkExec⟩ "p" "a" "fetch"
      [("a", ([] : ModeMap))] [("fetch", "")] [] [] [("a", [("fetch", "x")])]
      [("fetch", "x")] (Or.inr (by decide)) (Or.inr (by decide))⟩

end Metagit
